import Mathlib

/-!
# Payments engine: shallow embedding and verification

This file embeds the transaction validation and account-state engine of the
payments-engine repository (`src/currency.rs`, `src/types.rs`, `src/state.rs`,
`src/account.rs`, `src/validate.rs`, `src/handlers.rs`) into Lean 4 and proves
properties of the embedded program.

Modelling conventions:
* `CurrencyFloat` (an `f32` in the source) is carried as `ℚ`; `f32::round`
  (round half away from zero) is modelled exactly.  The main strand idealizes
  the `+`, `-`, `*`, `/` on amounts as exact rational arithmetic; a second
  strand (`roundF32`, `f32_handle_transaction`, ...) models the same handlers
  with the IEEE-754 binary32 rounding of every arithmetic operation made
  explicit, for the properties where that rounding is load-bearing.
* Rust `HashMap`s are modelled as total functions into `Option`;
  `HashSet<TransactionId>` values are modelled as `Finset ℕ`.
* Functions taking `&mut` state are modelled as returning the updated state
  alongside their result.  A validator's "account capability" return value is
  realised by the handler mutating the account at the event's client id,
  exactly as the borrow is used in the source.
* The source's `Result<T, TransactionError>` is `Except TransactionError T`.
* The repository contains two slightly divergent revisions of some call sites
  (`handlers.rs` calls `insert`/`dispute_tx` without the client key that
  `state.rs` requires, and names `settle_dispute` as `undispute_tx`); the
  embedding follows `state.rs`'s per-(client, tx) keying, passing the handled
  event's client id at those call sites, which is the only way the two files
  compose.  Likewise `validate.rs` constructs the error variant it calls
  `ClientMismatch` (named `DisputeClientMismatch` in `types.rs`); the embedding
  uses the `ClientMismatch` name with `types.rs`'s field set.
-/

/-- `type ClientId = u16` — only used as a map key, so modelled as `ℕ`. -/
abbrev ClientId := ℕ

/-- `type TransactionId = u32` — only used as a map key, so modelled as `ℕ`. -/
abbrev TransactionId := ℕ

/-- `type CurrencyFloat = f32`, modelled as `ℚ`. -/
abbrev CurrencyFloat := ℚ

/-- Floor of a rational, computed from its numerator and denominator. -/
def intFloorOfRat (q : ℚ) : ℤ := q.num.fdiv q.den

/-- Ceiling of a rational, computed as the negated floor of its negation. -/
def intCeilOfRat (q : ℚ) : ℤ := -intFloorOfRat (-q)

/-- Rust `f32::round`: round to the nearest integer, half away from zero. -/
def roundHalfAwayFromZero (q : ℚ) : ℤ :=
  if 0 ≤ q then intFloorOfRat (q + 1/2) else intCeilOfRat (q - 1/2)

/-- `round_currency` from `src/currency.rs`: round to 4 fractional digits. -/
def round_currency (amount : CurrencyFloat) : CurrencyFloat :=
  (roundHalfAwayFromZero (amount * 10000) : ℚ) / 10000

/-- `TransactionType` from `src/types.rs`. -/
inductive TransactionType where
  | Deposit
  | Withdrawal
  | Dispute
  | Resolve
  | Chargeback
deriving DecidableEq, Repr

/-- `TransactionRecord` from `src/types.rs` (the wire shape). -/
structure TransactionRecord where
  transaction_type : TransactionType
  client_id : ClientId
  tx_id : TransactionId
  amount : Option CurrencyFloat
deriving DecidableEq, Repr

/-- The `Deposit` transaction struct from `src/types.rs`. -/
structure Deposit where
  client_id : ClientId
  tx_id : TransactionId
  amount : CurrencyFloat
deriving DecidableEq, Repr

/-- The `Withdrawal` transaction struct from `src/types.rs`. -/
structure Withdrawal where
  client_id : ClientId
  tx_id : TransactionId
  amount : CurrencyFloat
deriving DecidableEq, Repr

/-- The `Dispute` transaction struct from `src/types.rs`. -/
structure Dispute where
  client_id : ClientId
  tx_id : TransactionId
deriving DecidableEq, Repr

/-- The `Resolve` transaction struct from `src/types.rs`. -/
structure Resolve where
  client_id : ClientId
  tx_id : TransactionId
deriving DecidableEq, Repr

/-- The `Chargeback` transaction struct from `src/types.rs`. -/
structure Chargeback where
  client_id : ClientId
  tx_id : TransactionId
deriving DecidableEq, Repr

/-- `TransactionError` from `src/types.rs`.  The client-mismatch variant is the
one `validate.rs` constructs under the name `ClientMismatch` (it appears in
`types.rs` as `DisputeClientMismatch` with the same fields). -/
inductive TransactionError where
  | InsufficientFunds (client : ClientId) (tx : TransactionId)
      (requested available : CurrencyFloat)
  | AccountLocked (client : ClientId) (tx : TransactionId)
  | DuplicateTxId (tx : TransactionId)
  | AmountNotPositive (tx : TransactionId) (amount : CurrencyFloat)
  | TxAlreadyDisputed (client : ClientId) (tx : TransactionId)
  | TxDoesNotExist (client : ClientId) (tx : TransactionId)
  | InvalidDispute (tx : TransactionId) (tx_type : TransactionType)
  | TxNotDisputed (client : ClientId) (tx : TransactionId)
  | DisputedTxFailed (tx : TransactionId)
  | DisputeAlreadySettled (client : ClientId) (tx : TransactionId)
  | ClientMismatch (tx : TransactionId) (tx_client : ClientId)
      (dispute_client : ClientId)
  | ImproperTransaction (record : TransactionRecord)
  | UnexpectedError (msg : String)
deriving DecidableEq, Repr

instance {ε α : Type} [DecidableEq ε] [DecidableEq α] : DecidableEq (Except ε α)
  | .ok a, .ok b =>
      if h : a = b then .isTrue (by rw [h]) else .isFalse (fun hh => h (by injection hh))
  | .ok _, .error _ => .isFalse (fun hh => by injection hh)
  | .error _, .ok _ => .isFalse (fun hh => by injection hh)
  | .error e, .error f =>
      if h : e = f then .isTrue (by rw [h]) else .isFalse (fun hh => h (by injection hh))

/-- `TransactionContainer` from `src/types.rs`: a logged deposit or withdrawal,
stored as the outcome of its original validation. -/
inductive TransactionContainer where
  | deposit (result : Except TransactionError Deposit)
  | withdrawal (result : Except TransactionError Withdrawal)
deriving DecidableEq, Repr

/-- `TransactionContainer::tx_type` from `src/types.rs`. -/
def TransactionContainer.tx_type : TransactionContainer → TransactionType
  | .deposit _ => .Deposit
  | .withdrawal _ => .Withdrawal

/-- `Account` from `src/types.rs`. -/
structure Account where
  available : CurrencyFloat
  held : CurrencyFloat
  locked : Bool
deriving DecidableEq, Repr

/-- `Default for Account`: zeroed balances, unlocked. -/
def Account.defaultAccount : Account :=
  { available := 0, held := 0, locked := false }

/-- `AccountsState` from `src/state.rs`: `HashMap<ClientId, Account>`. -/
abbrev AccountsState := ClientId → Option Account

/-- `AccountsState::get`. -/
def AccountsState.get (s : AccountsState) (client_id : ClientId) : Option Account :=
  s client_id

/-- `AccountsState::get_mut_or_default`: `entry(client_id).or_default()`.
Returns the possibly-extended map together with the (pre-mutation) account the
borrow points at. -/
def AccountsState.get_mut_or_default (s : AccountsState) (client_id : ClientId) :
    AccountsState × Account :=
  match s client_id with
  | some a => (s, a)
  | none =>
      (fun c => if c = client_id then some Account.defaultAccount else s c,
       Account.defaultAccount)

/-- Mutation of one account through a validator-returned borrow: apply `f` to
the account stored at `client_id` (a no-op if absent, which recorded events
never hit). -/
def AccountsState.update (s : AccountsState) (client_id : ClientId)
    (f : Account → Account) : AccountsState :=
  fun c => if c = client_id then (s c).map f else s c

/-- `TransactionsState` from `src/state.rs`: the transaction log keyed by
client then transaction id, plus the global set of used transaction ids. -/
structure TransactionsState where
  by_client : ClientId → TransactionId → Option TransactionContainer
  tx_ids : TransactionId → Bool

/-- `TransactionsState::tx_exists`. -/
def TransactionsState.tx_exists (s : TransactionsState) (tx_id : TransactionId) : Bool :=
  s.tx_ids tx_id

/-- `TransactionsState::get`. -/
def TransactionsState.get (s : TransactionsState) (client_id : ClientId)
    (tx_id : TransactionId) : Option TransactionContainer :=
  s.by_client client_id tx_id

/-- `TransactionsState::insert`: always records `tx_id` in the global id set;
the per-client entry is `entry(tx_id).or_insert(transaction)`, so a duplicate
insert is discarded silently and never overwrites. -/
def TransactionsState.insert (s : TransactionsState) (client_id : ClientId)
    (tx_id : TransactionId) (transaction : TransactionContainer) : TransactionsState :=
  { by_client := fun c tx =>
      if c = client_id ∧ tx = tx_id then
        some ((s.by_client client_id tx_id).getD transaction)
      else s.by_client c tx,
    tx_ids := fun tx => if tx = tx_id then true else s.tx_ids tx }

/-- `DisputesState` from `src/state.rs`: active and settled dispute sets per
client (`HashMap<ClientId, HashSet<TransactionId>>`, absent key = empty set). -/
structure DisputesState where
  active : ClientId → Finset TransactionId
  settled : ClientId → Finset TransactionId

/-- `DisputesState::is_disputed`. -/
def DisputesState.is_disputed (s : DisputesState) (client_id : ClientId)
    (tx_id : TransactionId) : Bool :=
  tx_id ∈ s.active client_id

/-- `DisputesState::is_settled`. -/
def DisputesState.is_settled (s : DisputesState) (client_id : ClientId)
    (tx_id : TransactionId) : Bool :=
  tx_id ∈ s.settled client_id

/-- `DisputesState::dispute_tx`: insert into the client's active set, erroring
(without further mutation) if already present. -/
def DisputesState.dispute_tx (s : DisputesState) (client_id : ClientId)
    (tx_id : TransactionId) : DisputesState × Except TransactionError Unit :=
  if tx_id ∈ s.active client_id then
    (s, .error (.TxAlreadyDisputed client_id tx_id))
  else
    ({ s with active := fun c =>
        if c = client_id then insert tx_id (s.active c) else s.active c },
     .ok ())

/-- `DisputesState::settle_dispute`: remove from the client's active set and
add to the settled set; the removal happens first, so an
`DisputeAlreadySettled` error still leaves the active entry removed. -/
def DisputesState.settle_dispute (s : DisputesState) (client_id : ClientId)
    (tx_id : TransactionId) : DisputesState × Except TransactionError Unit :=
  if tx_id ∈ s.active client_id then
    let active1 : ClientId → Finset TransactionId := fun c =>
      if c = client_id then (s.active c).erase tx_id else s.active c
    if tx_id ∈ s.settled client_id then
      ({ s with active := active1 },
       .error (.DisputeAlreadySettled client_id tx_id))
    else
      let settled1 : ClientId → Finset TransactionId := fun c =>
        if c = client_id then insert tx_id (s.settled c) else s.settled c
      ({ active := active1, settled := settled1 }, .ok ())
  else
    (s, .error (.TxNotDisputed client_id tx_id))

/-- Root application `State` from `src/state.rs`. -/
structure State where
  accounts : AccountsState
  transactions : TransactionsState
  disputes : DisputesState

/-- `State::new`. -/
def State.new : State :=
  { accounts := fun _ => none,
    transactions := { by_client := fun _ _ => none, tx_ids := fun _ => false },
    disputes := { active := fun _ => ∅, settled := fun _ => ∅ } }

/-- `check_for_duplicate_tx_id` from `src/validate.rs`. -/
def check_for_duplicate_tx_id (tx_id : TransactionId)
    (transactions : TransactionsState) : Except TransactionError Unit :=
  if transactions.tx_exists tx_id then .error (.DuplicateTxId tx_id) else .ok ()

/-- `check_for_positive_amount` from `src/validate.rs`: accepts iff
`amount > 0.0`. -/
def check_for_positive_amount (tx : TransactionId) (amount : CurrencyFloat) :
    Except TransactionError Unit :=
  if 0 < amount then .ok () else .error (.AmountNotPositive tx amount)

/-- `validate_deposit` from `src/validate.rs`.  Returns the possibly-extended
accounts map (`get_mut_or_default` inserts a default account) and, on success,
the validated deposit; the returned `&mut` account capability is realised as
the deposit's client id. -/
def validate_deposit (deposit : Deposit) (accounts : AccountsState)
    (transactions : TransactionsState) :
    AccountsState × Except TransactionError Deposit :=
  match check_for_duplicate_tx_id deposit.tx_id transactions with
  | .error e => (accounts, .error e)
  | .ok () =>
    match check_for_positive_amount deposit.tx_id deposit.amount with
    | .error e => (accounts, .error e)
    | .ok () =>
      if (accounts.get_mut_or_default deposit.client_id).2.locked then
        ((accounts.get_mut_or_default deposit.client_id).1,
         .error (.AccountLocked deposit.client_id deposit.tx_id))
      else
        ((accounts.get_mut_or_default deposit.client_id).1, .ok deposit)

/-- `validate_withdrawal` from `src/validate.rs`.  Uses `get_mut` (never
creates an account); an unknown client is `InsufficientFunds` with
`available = 0`. -/
def validate_withdrawal (withdrawal : Withdrawal) (accounts : AccountsState)
    (transactions : TransactionsState) :
    AccountsState × Except TransactionError Withdrawal :=
  match check_for_duplicate_tx_id withdrawal.tx_id transactions with
  | .error e => (accounts, .error e)
  | .ok () =>
    match check_for_positive_amount withdrawal.tx_id withdrawal.amount with
    | .error e => (accounts, .error e)
    | .ok () =>
      match accounts.get withdrawal.client_id with
      | some account =>
        if account.locked then
          (accounts, .error (.AccountLocked withdrawal.client_id withdrawal.tx_id))
        else if withdrawal.amount ≤ account.available then
          (accounts, .ok withdrawal)
        else
          (accounts, .error (.InsufficientFunds withdrawal.client_id
            withdrawal.tx_id withdrawal.amount account.available))
      | none =>
        (accounts, .error (.InsufficientFunds withdrawal.client_id
          withdrawal.tx_id withdrawal.amount 0))

/-- `validate_dispute_for_successful_tx` from `src/validate.rs`: checks 3-5
(client match, not actively disputed, not settled) and base account access. -/
def validate_dispute_for_successful_tx (dispute : Dispute) (disputed_tx : Deposit)
    (accounts : AccountsState) (disputes : DisputesState) :
    AccountsState × Except TransactionError Deposit :=
  if dispute.client_id ≠ disputed_tx.client_id then
    (accounts, .error (.ClientMismatch dispute.tx_id disputed_tx.client_id
      dispute.client_id))
  else if disputes.is_disputed dispute.client_id dispute.tx_id then
    (accounts, .error (.TxAlreadyDisputed dispute.client_id dispute.tx_id))
  else if disputes.is_settled dispute.client_id dispute.tx_id then
    (accounts, .error (.DisputeAlreadySettled dispute.client_id dispute.tx_id))
  else
    match accounts.get dispute.client_id with
    | some _ => (accounts, .ok disputed_tx)
    | none => (accounts, .error (.UnexpectedError
        "Disputed transaction refers to nonexistent client"))

/-- `validate_dispute` from `src/validate.rs`.  The log lookup is
`transactions.get(dispute.client_id, dispute.tx_id)` — keyed by the dispute's
own client.  On success yields the logged disputed deposit. -/
def validate_dispute (dispute : Dispute) (accounts : AccountsState)
    (transactions : TransactionsState) (disputes : DisputesState) :
    AccountsState × Except TransactionError Deposit :=
  match transactions.get dispute.client_id dispute.tx_id with
  | some (.deposit res) =>
    match res with
    | .ok disputed_tx =>
        validate_dispute_for_successful_tx dispute disputed_tx accounts disputes
    | .error _ => (accounts, .error (.DisputedTxFailed dispute.tx_id))
  | some (.withdrawal res) =>
      (accounts, .error (.InvalidDispute dispute.tx_id
        (TransactionContainer.withdrawal res).tx_type))
  | none =>
      (accounts, .error (.TxDoesNotExist dispute.client_id dispute.tx_id))

/-- `validate_post_dispute_for_existing_tx` from `src/validate.rs` (shared by
resolve and chargeback): client match and actively-disputed checks.  The
returned `AccountAccess` is realised as the account's `locked` flag at access
time (which is what `handle_chargeback` branches on). -/
def validate_post_dispute_for_existing_tx (client_id : ClientId)
    (tx_id : TransactionId) (disputed_tx : Deposit) (accounts : AccountsState)
    (disputes : DisputesState) :
    AccountsState × Except TransactionError (Deposit × Bool) :=
  if client_id ≠ disputed_tx.client_id then
    (accounts, .error (.ClientMismatch tx_id disputed_tx.client_id client_id))
  else if ¬ disputes.is_disputed client_id tx_id then
    (accounts, .error (.TxNotDisputed client_id tx_id))
  else
    match accounts.get client_id with
    | some account => (accounts, .ok (disputed_tx, account.locked))
    | none => (accounts, .error (.UnexpectedError
        "Disputed transaction refers to nonexistent client"))

/-- `validate_post_dispute` from `src/validate.rs` (generic over `Resolve` and
`Chargeback`, which both carry only `client_id` and `tx_id`). -/
def validate_post_dispute (client_id : ClientId) (tx_id : TransactionId)
    (accounts : AccountsState) (transactions : TransactionsState)
    (disputes : DisputesState) :
    AccountsState × Except TransactionError (Deposit × Bool) :=
  match transactions.get client_id tx_id with
  | some (.deposit (.ok disputed_tx)) =>
      validate_post_dispute_for_existing_tx client_id tx_id disputed_tx
        accounts disputes
  | some _ =>
      (accounts, .error (.UnexpectedError
        "Cannot retrieve actively disputed transaction"))
  | none => (accounts, .error (.TxDoesNotExist client_id tx_id))

/-- `handle_deposit` from `src/handlers.rs`.  On success the recorder adds the
amount to `available` and logs the success; on failure the error outcome is
logged under the deposit's (client, tx) key. -/
def handle_deposit (deposit : Deposit) (s : State) :
    State × Except TransactionError Unit :=
  match validate_deposit deposit s.accounts s.transactions with
  | (accounts1, .ok valid_deposit) =>
      ({ s with
          accounts := accounts1.update valid_deposit.client_id fun a =>
            { a with available := a.available + valid_deposit.amount },
          transactions := s.transactions.insert deposit.client_id deposit.tx_id
            (.deposit (.ok valid_deposit)) },
       .ok ())
  | (accounts1, .error err) =>
      ({ s with
          accounts := accounts1,
          transactions := s.transactions.insert deposit.client_id deposit.tx_id
            (.deposit (.error err)) },
       .error err)

/-- `handle_withdrawal` from `src/handlers.rs`. -/
def handle_withdrawal (withdrawal : Withdrawal) (s : State) :
    State × Except TransactionError Unit :=
  match validate_withdrawal withdrawal s.accounts s.transactions with
  | (accounts1, .ok valid_withdrawal) =>
      ({ s with
          accounts := accounts1.update valid_withdrawal.client_id fun a =>
            { a with available := a.available - valid_withdrawal.amount },
          transactions := s.transactions.insert withdrawal.client_id
            withdrawal.tx_id (.withdrawal (.ok valid_withdrawal)) },
       .ok ())
  | (accounts1, .error err) =>
      ({ s with
          accounts := accounts1,
          transactions := s.transactions.insert withdrawal.client_id
            withdrawal.tx_id (.withdrawal (.error err)) },
       .error err)

/-- `handle_dispute` from `src/handlers.rs`: on success, move the disputed
amount from `available` to `held` and mark the tx disputed (the `dispute_tx`
result is discarded by the handler). -/
def handle_dispute (dispute : Dispute) (s : State) :
    State × Except TransactionError Unit :=
  match validate_dispute dispute s.accounts s.transactions s.disputes with
  | (accounts1, .ok disputed_tx) =>
      ({ s with
          accounts := accounts1.update dispute.client_id fun a =>
            { a with available := a.available - disputed_tx.amount,
                     held := a.held + disputed_tx.amount },
          disputes := (s.disputes.dispute_tx dispute.client_id dispute.tx_id).1 },
       .ok ())
  | (accounts1, .error err) => ({ s with accounts := accounts1 }, .error err)

/-- `handle_resolve` from `src/handlers.rs`: on success, move the disputed
amount from `held` back to `available` and settle the dispute (the
`settle_dispute` result is discarded by the handler). -/
def handle_resolve (resolve : Resolve) (s : State) :
    State × Except TransactionError Unit :=
  match validate_post_dispute resolve.client_id resolve.tx_id s.accounts
      s.transactions s.disputes with
  | (accounts1, .ok (disputed_tx, _)) =>
      ({ s with
          accounts := accounts1.update resolve.client_id fun a =>
            { a with available := a.available + disputed_tx.amount,
                     held := a.held - disputed_tx.amount },
          disputes := (s.disputes.settle_dispute resolve.client_id
            resolve.tx_id).1 },
       .ok ())
  | (accounts1, .error err) => ({ s with accounts := accounts1 }, .error err)

/-- `handle_chargeback` from `src/handlers.rs`: on success, remove the
disputed amount from `held`; if the access obtained at validation was
`Unlocked`, lock the account; then settle the dispute. -/
def handle_chargeback (chargeback : Chargeback) (s : State) :
    State × Except TransactionError Unit :=
  match validate_post_dispute chargeback.client_id chargeback.tx_id s.accounts
      s.transactions s.disputes with
  | (accounts1, .ok (disputed_tx, lockedAtAccess)) =>
      let accounts2 := accounts1.update chargeback.client_id fun a =>
        { a with held := a.held - disputed_tx.amount }
      let accounts3 :=
        if lockedAtAccess then accounts2
        else accounts2.update chargeback.client_id fun a => { a with locked := true }
      ({ s with
          accounts := accounts3,
          disputes := (s.disputes.settle_dispute chargeback.client_id
            chargeback.tx_id).1 },
       .ok ())
  | (accounts1, .error err) => ({ s with accounts := accounts1 }, .error err)

/-- `handle_transaction` from `src/handlers.rs`: the dispatcher.  Amounts are
rounded with `round_currency` when the typed event is constructed; a record
whose kind and amount-presence mismatch is rejected as `ImproperTransaction`
without touching state. -/
def handle_transaction (record : TransactionRecord) (s : State) :
    State × Except TransactionError Unit :=
  match record with
  | ⟨.Deposit, client_id, tx_id, some amount⟩ =>
      handle_deposit ⟨client_id, tx_id, round_currency amount⟩ s
  | ⟨.Withdrawal, client_id, tx_id, some amount⟩ =>
      handle_withdrawal ⟨client_id, tx_id, round_currency amount⟩ s
  | ⟨.Dispute, client_id, tx_id, none⟩ =>
      handle_dispute ⟨client_id, tx_id⟩ s
  | ⟨.Resolve, client_id, tx_id, none⟩ =>
      handle_resolve ⟨client_id, tx_id⟩ s
  | ⟨.Chargeback, client_id, tx_id, none⟩ =>
      handle_chargeback ⟨client_id, tx_id⟩ s
  | other => (s, .error (.ImproperTransaction other))

/-- Fold `handle_transaction` over a stream of records, starting from a given
state (the single-logical-writer semantics of §5 of the design). -/
def processFrom (s : State) (records : List TransactionRecord) : State :=
  records.foldl (fun st r => (handle_transaction r st).1) s

/-- Process a stream of records from the empty state. -/
def processAll (records : List TransactionRecord) : State :=
  processFrom State.new records

/-! ## IEEE binary32 strand

`CurrencyFloat` is `f32` in the source, so the `+`, `-`, `*`, `/` in the
recorder and in `round_currency` are IEEE-754 binary32 operations (correctly
rounded to nearest, ties to even), not exact rational arithmetic.  The
definitions above idealize them as exact ℚ; the strand below models the same
handlers with the binary32 rounding made explicit, on exactly-representable
rationals.  It is faithful for results of normal binary32 magnitude (no
overflow or subnormal handling), which covers every value in the traces
evaluated in this file.  The validators perform only comparisons, which are
exact on binary32 values, so they are shared between the two strands. -/

/-- `2 ^ e` as a rational, for an integer exponent. -/
def pow2 (e : ℤ) : ℚ :=
  if 0 ≤ e then ((2 ^ e.toNat : ℕ) : ℚ) else 1 / ((2 ^ (-e).toNat : ℕ) : ℚ)

/-- Round a rational to the nearest integer, ties to even (the IEEE-754
default rounding applied to a scaled significand). -/
def roundTiesToEvenInt (q : ℚ) : ℤ :=
  let f := intFloorOfRat q
  let r := q - (f : ℚ)
  if r < 1/2 then f
  else if 1/2 < r then f + 1
  else if f % 2 = 0 then f else f + 1

/-- The binary exponent of a positive rational, clamped to the binary32
normal range: the largest `e` in `[-126, 127]` with `2 ^ e ≤ q`. -/
def f32exp (q : ℚ) : ℤ :=
  ((List.range 254).foldl
    (fun acc _ =>
      (if acc.2.2 ≤ q then acc.2.1 else acc.1, acc.2.1 + 1, acc.2.2 * 2))
    (-126, -126, pow2 (-126))).1

/-- Round a real (rational) value to the nearest IEEE-754 binary32 value,
ties to even: scale into the 24-bit significand range for the value's binary
exponent, round the significand to the nearest even integer, and scale
back. -/
def roundF32 (q : ℚ) : ℚ :=
  if q = 0 then 0
  else if 0 < q then
    (roundTiesToEvenInt (q * pow2 (23 - f32exp q)) : ℚ) * pow2 (f32exp q - 23)
  else
    -((roundTiesToEvenInt ((-q) * pow2 (23 - f32exp (-q))) : ℚ)
        * pow2 (f32exp (-q) - 23))

/-- Rust `f32` addition: the exact sum, correctly rounded to binary32. -/
def f32add (x y : ℚ) : ℚ := roundF32 (x + y)

/-- Rust `f32` subtraction: the exact difference, correctly rounded. -/
def f32sub (x y : ℚ) : ℚ := roundF32 (x - y)

/-- Rust `f32` multiplication: the exact product, correctly rounded. -/
def f32mul (x y : ℚ) : ℚ := roundF32 (x * y)

/-- Rust `f32` division: the exact quotient, correctly rounded. -/
def f32div (x y : ℚ) : ℚ := roundF32 (x / y)

/-- `round_currency` from `src/currency.rs` with its `f32` arithmetic made
explicit: `(amount * multiplier).round() / multiplier` where `*` and `/`
round to binary32.  `f32::round`'s result is always exactly representable
(every binary32 of magnitude at least `2 ^ 23` is an integer, and smaller
values round to integers below `2 ^ 23 + 1`), so no extra rounding step is
needed after `roundHalfAwayFromZero`. -/
def f32_round_currency (amount : CurrencyFloat) : CurrencyFloat :=
  f32div (roundHalfAwayFromZero (f32mul amount 10000) : ℚ) 10000

/-- `handle_deposit` from `src/handlers.rs` with the recorder's balance
update performed in binary32, as `CurrencyFloat = f32` dictates. -/
def f32_handle_deposit (deposit : Deposit) (s : State) :
    State × Except TransactionError Unit :=
  match validate_deposit deposit s.accounts s.transactions with
  | (accounts1, .ok valid_deposit) =>
      ({ s with
          accounts := accounts1.update valid_deposit.client_id fun a =>
            { a with available := f32add a.available valid_deposit.amount },
          transactions := s.transactions.insert deposit.client_id deposit.tx_id
            (.deposit (.ok valid_deposit)) },
       .ok ())
  | (accounts1, .error err) =>
      ({ s with
          accounts := accounts1,
          transactions := s.transactions.insert deposit.client_id deposit.tx_id
            (.deposit (.error err)) },
       .error err)

/-- `handle_withdrawal` from `src/handlers.rs`, binary32 balance update. -/
def f32_handle_withdrawal (withdrawal : Withdrawal) (s : State) :
    State × Except TransactionError Unit :=
  match validate_withdrawal withdrawal s.accounts s.transactions with
  | (accounts1, .ok valid_withdrawal) =>
      ({ s with
          accounts := accounts1.update valid_withdrawal.client_id fun a =>
            { a with available := f32sub a.available valid_withdrawal.amount },
          transactions := s.transactions.insert withdrawal.client_id
            withdrawal.tx_id (.withdrawal (.ok valid_withdrawal)) },
       .ok ())
  | (accounts1, .error err) =>
      ({ s with
          accounts := accounts1,
          transactions := s.transactions.insert withdrawal.client_id
            withdrawal.tx_id (.withdrawal (.error err)) },
       .error err)

/-- `handle_dispute` from `src/handlers.rs`, binary32 balance updates. -/
def f32_handle_dispute (dispute : Dispute) (s : State) :
    State × Except TransactionError Unit :=
  match validate_dispute dispute s.accounts s.transactions s.disputes with
  | (accounts1, .ok disputed_tx) =>
      ({ s with
          accounts := accounts1.update dispute.client_id fun a =>
            { a with available := f32sub a.available disputed_tx.amount,
                     held := f32add a.held disputed_tx.amount },
          disputes := (s.disputes.dispute_tx dispute.client_id dispute.tx_id).1 },
       .ok ())
  | (accounts1, .error err) => ({ s with accounts := accounts1 }, .error err)

/-- `handle_resolve` from `src/handlers.rs`, binary32 balance updates. -/
def f32_handle_resolve (resolve : Resolve) (s : State) :
    State × Except TransactionError Unit :=
  match validate_post_dispute resolve.client_id resolve.tx_id s.accounts
      s.transactions s.disputes with
  | (accounts1, .ok (disputed_tx, _)) =>
      ({ s with
          accounts := accounts1.update resolve.client_id fun a =>
            { a with available := f32add a.available disputed_tx.amount,
                     held := f32sub a.held disputed_tx.amount },
          disputes := (s.disputes.settle_dispute resolve.client_id
            resolve.tx_id).1 },
       .ok ())
  | (accounts1, .error err) => ({ s with accounts := accounts1 }, .error err)

/-- `handle_chargeback` from `src/handlers.rs`, binary32 balance update. -/
def f32_handle_chargeback (chargeback : Chargeback) (s : State) :
    State × Except TransactionError Unit :=
  match validate_post_dispute chargeback.client_id chargeback.tx_id s.accounts
      s.transactions s.disputes with
  | (accounts1, .ok (disputed_tx, lockedAtAccess)) =>
      let accounts2 := accounts1.update chargeback.client_id fun a =>
        { a with held := f32sub a.held disputed_tx.amount }
      let accounts3 :=
        if lockedAtAccess then accounts2
        else accounts2.update chargeback.client_id fun a => { a with locked := true }
      ({ s with
          accounts := accounts3,
          disputes := (s.disputes.settle_dispute chargeback.client_id
            chargeback.tx_id).1 },
       .ok ())
  | (accounts1, .error err) => ({ s with accounts := accounts1 }, .error err)

/-- `handle_transaction` from `src/handlers.rs` over the binary32 strand. -/
def f32_handle_transaction (record : TransactionRecord) (s : State) :
    State × Except TransactionError Unit :=
  match record with
  | ⟨.Deposit, client_id, tx_id, some amount⟩ =>
      f32_handle_deposit ⟨client_id, tx_id, f32_round_currency amount⟩ s
  | ⟨.Withdrawal, client_id, tx_id, some amount⟩ =>
      f32_handle_withdrawal ⟨client_id, tx_id, f32_round_currency amount⟩ s
  | ⟨.Dispute, client_id, tx_id, none⟩ =>
      f32_handle_dispute ⟨client_id, tx_id⟩ s
  | ⟨.Resolve, client_id, tx_id, none⟩ =>
      f32_handle_resolve ⟨client_id, tx_id⟩ s
  | ⟨.Chargeback, client_id, tx_id, none⟩ =>
      f32_handle_chargeback ⟨client_id, tx_id⟩ s
  | other => (s, .error (.ImproperTransaction other))

/-- Fold the binary32 dispatcher over a stream of records. -/
def f32_processFrom (s : State) (records : List TransactionRecord) : State :=
  records.foldl (fun st r => (f32_handle_transaction r st).1) s

/-- Process a stream of records from the empty state, binary32 strand. -/
def f32_processAll (records : List TransactionRecord) : State :=
  f32_processFrom State.new records

/-! ## Observation helpers -/

/-- The held balance stored in an optional account (an absent account has no
held funds). -/
def optHeld : Option Account → ℚ
  | some a => a.held
  | none => 0

/-- A client's held balance in a state. -/
def heldOf (s : State) (c : ClientId) : ℚ := optHeld (s.accounts c)

/-- The available balance of an optional account: a client with no prior
account is treated as having `available = 0`. -/
def availOf : Option Account → ℚ
  | some a => a.available
  | none => 0

/-- The amount of the successful deposit logged at `(c, tx)`, or `0` if no
successful deposit is logged there. -/
def amtOf (s : State) (c : ClientId) (tx : TransactionId) : ℚ :=
  match s.transactions.by_client c tx with
  | some (.deposit (.ok d)) => d.amount
  | _ => 0

/-! ## Frame lemmas for the validators -/

theorem validate_withdrawal_fst (w : Withdrawal) (accounts : AccountsState)
    (transactions : TransactionsState) :
    (validate_withdrawal w accounts transactions).1 = accounts := by
  unfold validate_withdrawal
  split
  · rfl
  · split
    · rfl
    · split
      · split
        · rfl
        · split <;> rfl
      · rfl

theorem validate_dispute_for_successful_tx_fst (dp : Dispute) (d : Deposit)
    (accounts : AccountsState) (disputes : DisputesState) :
    (validate_dispute_for_successful_tx dp d accounts disputes).1 = accounts := by
  unfold validate_dispute_for_successful_tx
  split
  · rfl
  · split
    · rfl
    · split
      · rfl
      · split <;> rfl

theorem validate_dispute_fst (dp : Dispute) (accounts : AccountsState)
    (transactions : TransactionsState) (disputes : DisputesState) :
    (validate_dispute dp accounts transactions disputes).1 = accounts := by
  unfold validate_dispute
  split
  · split
    · exact validate_dispute_for_successful_tx_fst ..
    · rfl
  · rfl
  · rfl

theorem validate_post_dispute_for_existing_tx_fst (cl : ClientId)
    (tx : TransactionId) (d : Deposit) (accounts : AccountsState)
    (disputes : DisputesState) :
    (validate_post_dispute_for_existing_tx cl tx d accounts disputes).1
      = accounts := by
  unfold validate_post_dispute_for_existing_tx
  split
  · rfl
  · split
    · rfl
    · split <;> rfl

theorem validate_post_dispute_fst (cl : ClientId) (tx : TransactionId)
    (accounts : AccountsState) (transactions : TransactionsState)
    (disputes : DisputesState) :
    (validate_post_dispute cl tx accounts transactions disputes).1 = accounts := by
  unfold validate_post_dispute
  split
  · exact validate_post_dispute_for_existing_tx_fst ..
  · rfl
  · rfl

/-- `validate_deposit` changes no client other than the deposit's. -/
theorem validate_deposit_fst_ne (d : Deposit) (accounts : AccountsState)
    (transactions : TransactionsState) (c : ClientId) (hc : c ≠ d.client_id) :
    (validate_deposit d accounts transactions).1 c = accounts c := by
  unfold validate_deposit
  split
  · rfl
  · split
    · rfl
    · have key : (accounts.get_mut_or_default d.client_id).1 c = accounts c := by
        unfold AccountsState.get_mut_or_default
        split
        · rfl
        · simp [if_neg hc]
      split <;> exact key

/-- At the deposit's own client, `validate_deposit` either keeps the entry or
creates the default account from nothing. -/
theorem validate_deposit_fst_self (d : Deposit) (accounts : AccountsState)
    (transactions : TransactionsState) :
    (validate_deposit d accounts transactions).1 d.client_id
        = accounts d.client_id
      ∨ (accounts d.client_id = none
         ∧ (validate_deposit d accounts transactions).1 d.client_id
             = some Account.defaultAccount) := by
  unfold validate_deposit
  split
  · exact Or.inl rfl
  · split
    · exact Or.inl rfl
    · have key : (accounts.get_mut_or_default d.client_id).1 d.client_id
            = accounts d.client_id
          ∨ (accounts d.client_id = none
             ∧ (accounts.get_mut_or_default d.client_id).1 d.client_id
                 = some Account.defaultAccount) := by
        unfold AccountsState.get_mut_or_default
        split
        · exact Or.inl rfl
        · exact Or.inr ⟨by assumption, by simp⟩
      split <;> exact key

/-- `validate_deposit` preserves every client's held balance and never deletes
an account. -/
theorem validate_deposit_fst_optHeld (d : Deposit) (accounts : AccountsState)
    (transactions : TransactionsState) (c : ClientId) :
    optHeld ((validate_deposit d accounts transactions).1 c) = optHeld (accounts c) := by
  by_cases hc : c = d.client_id
  · subst hc
    rcases validate_deposit_fst_self d accounts transactions with h | ⟨h0, h⟩
    · rw [h]
    · rw [h, h0]
      simp [optHeld, Account.defaultAccount]
  · rw [validate_deposit_fst_ne d accounts transactions c hc]

/-- On a rejection, `validate_deposit` leaves the accounts map unchanged (the
only branch that could extend it — an absent client past the duplicate and
positivity checks — always succeeds, because a fresh default account is
unlocked). -/
theorem validate_deposit_error_fst (d : Deposit) (accounts : AccountsState)
    (transactions : TransactionsState) (e : TransactionError)
    (h : (validate_deposit d accounts transactions).2 = .error e) :
    (validate_deposit d accounts transactions).1 = accounts := by
  unfold validate_deposit at h ⊢
  split at h
  · rfl
  · split at h
    · rfl
    · by_cases hl : ((accounts.get_mut_or_default d.client_id).2).locked = true
      · rw [if_pos hl]
        unfold AccountsState.get_mut_or_default at hl ⊢
        rcases hacc : accounts d.client_id with _ | a
        · rw [hacc] at hl
          simp [Account.defaultAccount] at hl
        · rfl
      · rw [if_neg hl] at h
        simp at h

/-! ## Small-step lemmas about the state stores -/

theorem insert_by_client_ne (s : TransactionsState) (cl : ClientId)
    (tx : TransactionId) (t : TransactionContainer) (c : ClientId)
    (tx1 : TransactionId) (h : ¬(c = cl ∧ tx1 = tx)) :
    (s.insert cl tx t).by_client c tx1 = s.by_client c tx1 := by
  simp only [TransactionsState.insert]
  rw [if_neg h]

theorem insert_preserves_some (s : TransactionsState) (cl : ClientId)
    (tx : TransactionId) (t : TransactionContainer) (c : ClientId)
    (tx1 : TransactionId) (x : TransactionContainer)
    (h : s.by_client c tx1 = some x) :
    (s.insert cl tx t).by_client c tx1 = some x := by
  simp only [TransactionsState.insert]
  by_cases hk : c = cl ∧ tx1 = tx
  · obtain ⟨h1, h2⟩ := hk
    subst h1; subst h2
    simp [h]
  · rw [if_neg hk]
    exact h

theorem insert_self_of_none (s : TransactionsState) (cl : ClientId)
    (tx : TransactionId) (t : TransactionContainer)
    (h : s.by_client cl tx = none) :
    (s.insert cl tx t).by_client cl tx = some t := by
  simp [TransactionsState.insert, h]

theorem insert_tx_ids_ne (s : TransactionsState) (cl : ClientId)
    (tx : TransactionId) (t : TransactionContainer) (tx1 : TransactionId)
    (h : tx1 ≠ tx) :
    (s.insert cl tx t).tx_ids tx1 = s.tx_ids tx1 := by
  simp only [TransactionsState.insert]
  rw [if_neg h]

theorem update_ne (s : AccountsState) (cl : ClientId) (f : Account → Account)
    (c : ClientId) (h : c ≠ cl) : s.update cl f c = s c := by
  simp only [AccountsState.update]
  rw [if_neg h]

theorem update_self (s : AccountsState) (cl : ClientId) (f : Account → Account) :
    s.update cl f cl = (s cl).map f := by
  simp [AccountsState.update]

theorem dispute_tx_settled (ds : DisputesState) (cl : ClientId)
    (tx : TransactionId) : ((ds.dispute_tx cl tx).1).settled = ds.settled := by
  unfold DisputesState.dispute_tx
  split <;> rfl

theorem dispute_tx_active (ds : DisputesState) (cl : ClientId)
    (tx : TransactionId) (h : tx ∉ ds.active cl) (c : ClientId) :
    ((ds.dispute_tx cl tx).1).active c
      = if c = cl then insert tx (ds.active c) else ds.active c := by
  unfold DisputesState.dispute_tx
  rw [if_neg h]

theorem settle_dispute_active (ds : DisputesState) (cl : ClientId)
    (tx : TransactionId) (h : tx ∈ ds.active cl) (c : ClientId) :
    ((ds.settle_dispute cl tx).1).active c
      = if c = cl then (ds.active c).erase tx else ds.active c := by
  unfold DisputesState.settle_dispute
  rw [if_pos h]
  split <;> rfl

/-! ## Success characterizations of the validators -/

theorem check_for_duplicate_tx_id_ok (tx : TransactionId)
    (t : TransactionsState) (u : Unit)
    (h : check_for_duplicate_tx_id tx t = .ok u) : t.tx_ids tx = false := by
  unfold check_for_duplicate_tx_id at h
  split at h
  · simp at h
  · next hn => simpa [TransactionsState.tx_exists] using hn

theorem check_for_positive_amount_ok (tx : TransactionId) (amt : CurrencyFloat)
    (u : Unit) (h : check_for_positive_amount tx amt = .ok u) : 0 < amt := by
  unfold check_for_positive_amount at h
  split at h
  · assumption
  · simp at h

theorem validate_deposit_ok (d : Deposit) (accounts : AccountsState)
    (transactions : TransactionsState) (a1 : AccountsState) (vd : Deposit)
    (h : validate_deposit d accounts transactions = (a1, .ok vd)) :
    vd = d ∧ transactions.tx_ids d.tx_id = false ∧ 0 < d.amount := by
  unfold validate_deposit at h
  split at h
  · simp at h
  · next u hdup =>
    split at h
    · simp at h
    · next u2 hpos =>
      refine ⟨?_, check_for_duplicate_tx_id_ok _ _ _ hdup,
        check_for_positive_amount_ok _ _ _ hpos⟩
      split at h
      · simp at h
      · simp at h
        exact h.2.symm

theorem validate_withdrawal_ok (w : Withdrawal) (accounts : AccountsState)
    (transactions : TransactionsState) (a1 : AccountsState) (vw : Withdrawal)
    (h : validate_withdrawal w accounts transactions = (a1, .ok vw)) :
    a1 = accounts ∧ vw = w ∧ transactions.tx_ids w.tx_id = false := by
  have hfst := validate_withdrawal_fst w accounts transactions
  rw [h] at hfst
  refine ⟨hfst, ?_, ?_⟩ <;> unfold validate_withdrawal at h
  · split at h
    · simp at h
    · split at h
      · simp at h
      · split at h
        · split at h
          · simp at h
          · split at h
            · simp at h
              exact h.2.symm
            · simp at h
        · simp at h
  · split at h
    · simp at h
    · next u hdup => exact check_for_duplicate_tx_id_ok _ _ _ hdup

theorem validate_dispute_ok (dp : Dispute) (accounts : AccountsState)
    (transactions : TransactionsState) (disputes : DisputesState)
    (a1 : AccountsState) (d : Deposit)
    (h : validate_dispute dp accounts transactions disputes = (a1, .ok d)) :
    a1 = accounts
    ∧ transactions.by_client dp.client_id dp.tx_id = some (.deposit (.ok d))
    ∧ dp.client_id = d.client_id
    ∧ dp.tx_id ∉ disputes.active dp.client_id
    ∧ (accounts dp.client_id).isSome := by
  have hfst := validate_dispute_fst dp accounts transactions disputes
  rw [h] at hfst
  refine ⟨hfst, ?_⟩
  unfold validate_dispute at h
  split at h
  · next res heq =>
    split at h
    · next d0 hres =>
      unfold validate_dispute_for_successful_tx at h
      split at h
      · simp at h
      · next hcl =>
        split at h
        · simp at h
        · next hdisp =>
          split at h
          · simp at h
          · split at h
            · next acct hacct =>
              simp at h
              refine ⟨?_, ?_, ?_, ?_⟩
              · rw [show transactions.by_client dp.client_id dp.tx_id
                    = some (TransactionContainer.deposit (Except.ok hres)) from heq, h.2]
              · rw [h.2] at hcl
                exact Classical.byContradiction fun hne => hcl fun hh => hne hh
              · rw [DisputesState.is_disputed] at hdisp
                simpa using hdisp
              · rw [AccountsState.get] at hacct
                rw [hacct]
                rfl
            · simp at h
    · simp at h
  · simp at h
  · simp at h

theorem validate_post_dispute_ok (cl : ClientId) (tx : TransactionId)
    (accounts : AccountsState) (transactions : TransactionsState)
    (disputes : DisputesState) (a1 : AccountsState) (d : Deposit) (lk : Bool)
    (h : validate_post_dispute cl tx accounts transactions disputes
          = (a1, .ok (d, lk))) :
    a1 = accounts
    ∧ transactions.by_client cl tx = some (.deposit (.ok d))
    ∧ cl = d.client_id
    ∧ tx ∈ disputes.active cl
    ∧ ∃ acct, accounts cl = some acct ∧ lk = acct.locked := by
  have hfst := validate_post_dispute_fst cl tx accounts transactions disputes
  rw [h] at hfst
  refine ⟨hfst, ?_⟩
  unfold validate_post_dispute at h
  split at h
  · next d0 heq =>
    unfold validate_post_dispute_for_existing_tx at h
    split at h
    · simp at h
    · next hcl =>
      split at h
      · simp at h
      · next hdisp =>
        split at h
        · next acct hacct =>
          simp at h
          refine ⟨?_, ?_, ?_, ?_⟩
          · rw [show transactions.by_client cl tx
                = some (TransactionContainer.deposit (Except.ok d0)) from heq, h.2.1]
          · rw [h.2.1] at hcl
            exact Classical.byContradiction fun hne => hcl fun hh => hne hh
          · rw [DisputesState.is_disputed] at hdisp
            simpa using hdisp
          · exact ⟨acct, hacct, h.2.2.symm⟩
        · simp at h
  · simp at h
  · simp at h

/-! ## The reachable-state invariant -/

theorem update_optHeld (a : AccountsState) (cl : ClientId) (f : Account → Account)
    (hf : ∀ x, (f x).held = x.held) (c : ClientId) :
    optHeld (a.update cl f c) = optHeld (a c) := by
  by_cases hc : c = cl
  · subst hc
    rw [update_self]
    rcases ha : a c with _ | x <;> simp [optHeld, hf]
  · rw [update_ne _ _ _ _ hc]

/-- The inductive invariant of the engine: every successful logged deposit
belongs to the client it is filed under and has a positive amount; every
logged entry's tx id is in the global id set; every actively disputed tx
refers to a successful logged deposit of that client; and each client's held
balance is exactly the sum of the amounts of their actively disputed
deposits. -/
structure EngineInv (s : State) : Prop where
  log_ok : ∀ c tx d,
    s.transactions.by_client c tx = some (.deposit (.ok d)) →
    d.client_id = c ∧ 0 < d.amount
  log_global : ∀ c tx,
    s.transactions.by_client c tx ≠ none → s.transactions.tx_ids tx = true
  active_logged : ∀ c tx, tx ∈ s.disputes.active c →
    ∃ d, s.transactions.by_client c tx = some (.deposit (.ok d))
  held_sum : ∀ c, heldOf s c = Finset.sum (s.disputes.active c) (amtOf s c)

theorem inv_state_new : EngineInv State.new := by
  refine ⟨?_, ?_, ?_, ?_⟩
  · intro c tx d h
    simp [State.new] at h
  · intro c tx h
    simp [State.new] at h
  · intro c tx h
    simp [State.new] at h
  · intro c
    simp [State.new, heldOf, optHeld]

/-- Inserting a log entry preserves the invariant, for any new accounts map
that preserves every client's held balance: an existing `(client, tx)` entry
is never overwritten, and a fresh entry is covered by `hok`. -/
theorem inv_insert_any (s : State) (hInv : EngineInv s) (cl : ClientId)
    (txid : TransactionId) (t : TransactionContainer)
    (hok : ∀ dd, t = .deposit (.ok dd) → dd.client_id = cl ∧ 0 < dd.amount)
    (accounts1 : AccountsState)
    (hheld : ∀ c, optHeld (accounts1 c) = optHeld (s.accounts c)) :
    EngineInv ⟨accounts1, s.transactions.insert cl txid t, s.disputes⟩ := by
  refine ⟨?_, ?_, ?_, ?_⟩
  · intro c tx dd hentry
    by_cases hk : c = cl ∧ tx = txid
    · obtain ⟨h1, h2⟩ := hk
      subst h1; subst h2
      rcases hold : s.transactions.by_client c tx with _ | x
      · rw [insert_self_of_none _ _ _ _ hold] at hentry
        exact hok dd (Option.some.inj hentry)
      · rw [insert_preserves_some _ _ _ _ _ _ _ hold] at hentry
        exact hInv.log_ok _ _ dd (hentry ▸ hold)
    · rw [insert_by_client_ne _ _ _ _ _ _ hk] at hentry
      exact hInv.log_ok c tx dd hentry
  · intro c tx hne
    by_cases htx : tx = txid
    · subst htx
      simp [TransactionsState.insert]
    · rw [insert_tx_ids_ne _ _ _ _ _ htx]
      apply hInv.log_global c tx
      rwa [insert_by_client_ne _ _ _ _ _ _ (fun hk => htx hk.2)] at hne
  · intro c tx hmem
    obtain ⟨dd, hentry⟩ := hInv.active_logged c tx hmem
    exact ⟨dd, insert_preserves_some _ _ _ _ _ _ _ hentry⟩
  · intro c
    have hsum : Finset.sum (s.disputes.active c)
        (amtOf ⟨accounts1, s.transactions.insert cl txid t, s.disputes⟩ c)
        = Finset.sum (s.disputes.active c) (amtOf s c) := by
      refine Finset.sum_congr rfl fun tx hmem => ?_
      obtain ⟨dd, hentry⟩ := hInv.active_logged c tx hmem
      unfold amtOf
      rw [show (⟨accounts1, s.transactions.insert cl txid t,
            s.disputes⟩ : State).transactions.by_client c tx
          = some (.deposit (.ok dd))
          from insert_preserves_some _ _ _ _ _ _ _ hentry, hentry]
    rw [show heldOf ⟨accounts1, s.transactions.insert cl txid t, s.disputes⟩ c
        = optHeld (accounts1 c) from rfl, hheld, hsum]
    exact hInv.held_sum c

theorem inv_handle_deposit (d : Deposit) (s : State) (hInv : EngineInv s) :
    EngineInv (handle_deposit d s).1 := by
  rcases hv : validate_deposit d s.accounts s.transactions with ⟨a1, res⟩
  have hopt : ∀ c, optHeld (a1 c) = optHeld (s.accounts c) := by
    intro c
    have := validate_deposit_fst_optHeld d s.accounts s.transactions c
    rwa [hv] at this
  cases res with
  | ok vd =>
    obtain ⟨hvd, hfresh, hpos⟩ := validate_deposit_ok d s.accounts s.transactions a1 vd hv
    subst hvd
    simp only [handle_deposit, hv]
    refine inv_insert_any s hInv vd.client_id vd.tx_id _ ?_ _ ?_
    · intro dd hdd
      injection hdd with h1
      injection h1 with h2
      exact h2 ▸ ⟨rfl, hpos⟩
    · intro c
      rw [update_optHeld a1 vd.client_id
        (fun a => { a with available := a.available + vd.amount }) (fun x => rfl) c]
      exact hopt c
  | error e =>
    simp only [handle_deposit, hv]
    refine inv_insert_any s hInv d.client_id d.tx_id _ ?_ _ hopt
    intro dd hdd
    injection hdd with h1
    exact Except.noConfusion h1

theorem inv_handle_withdrawal (w : Withdrawal) (s : State) (hInv : EngineInv s) :
    EngineInv (handle_withdrawal w s).1 := by
  rcases hv : validate_withdrawal w s.accounts s.transactions with ⟨a1, res⟩
  have ha1 : a1 = s.accounts := by
    have := validate_withdrawal_fst w s.accounts s.transactions
    rwa [hv] at this
  subst ha1
  cases res with
  | ok vw =>
    simp only [handle_withdrawal, hv]
    refine inv_insert_any s hInv w.client_id w.tx_id _ ?_ _ ?_
    · intro dd hdd
      exact TransactionContainer.noConfusion hdd
    · intro c
      exact update_optHeld s.accounts vw.client_id
        (fun a => { a with available := a.available - vw.amount }) (fun x => rfl) c
  | error e =>
    simp only [handle_withdrawal, hv]
    refine inv_insert_any s hInv w.client_id w.tx_id _ ?_ _ fun c => rfl
    intro dd hdd
    exact TransactionContainer.noConfusion hdd

theorem inv_handle_dispute (dp : Dispute) (s : State) (hInv : EngineInv s) :
    EngineInv (handle_dispute dp s).1 := by
  rcases hv : validate_dispute dp s.accounts s.transactions s.disputes with ⟨a1, res⟩
  cases res with
  | error e =>
    have ha1 : a1 = s.accounts := by
      have := validate_dispute_fst dp s.accounts s.transactions s.disputes
      rwa [hv] at this
    subst ha1
    simp only [handle_dispute, hv]
    exact hInv
  | ok d =>
    obtain ⟨ha1, hentry, hcl, hnot, hsome⟩ :=
      validate_dispute_ok dp s.accounts s.transactions s.disputes a1 d hv
    subst ha1
    simp only [handle_dispute, hv]
    obtain ⟨acct, hacct⟩ := Option.isSome_iff_exists.mp hsome
    refine ⟨hInv.log_ok, hInv.log_global, ?_, ?_⟩
    · intro c tx hmem
      rw [show ({ s with
            accounts := s.accounts.update dp.client_id fun a =>
              { a with available := a.available - d.amount,
                       held := a.held + d.amount },
            disputes := (s.disputes.dispute_tx dp.client_id dp.tx_id).1 }
              : State).disputes.active c
          = ((s.disputes.dispute_tx dp.client_id dp.tx_id).1).active c from rfl,
        dispute_tx_active _ _ _ hnot] at hmem
      by_cases hc : c = dp.client_id
      · rw [if_pos hc] at hmem
        rcases Finset.mem_insert.mp hmem with h | h
        · exact ⟨d, by rw [hc, h]; exact hentry⟩
        · exact hInv.active_logged c tx h
      · rw [if_neg hc] at hmem
        exact hInv.active_logged c tx hmem
    · intro c
      have hactive : ({ s with
            accounts := s.accounts.update dp.client_id fun a =>
              { a with available := a.available - d.amount,
                       held := a.held + d.amount },
            disputes := (s.disputes.dispute_tx dp.client_id dp.tx_id).1 }
              : State).disputes.active c
          = if c = dp.client_id then insert dp.tx_id (s.disputes.active c)
            else s.disputes.active c := dispute_tx_active _ _ _ hnot c
      by_cases hc : c = dp.client_id
      · have hheld1 : optHeld ((s.accounts.update dp.client_id fun a =>
              { a with available := a.available - d.amount,
                       held := a.held + d.amount }) c)
            = acct.held + d.amount := by
          rw [hc, update_self, hacct]
          rfl
        have hamt_tx : amtOf ({ s with
              accounts := s.accounts.update dp.client_id fun a =>
                { a with available := a.available - d.amount,
                         held := a.held + d.amount },
              disputes := (s.disputes.dispute_tx dp.client_id dp.tx_id).1 }
                : State) c dp.tx_id = d.amount := by
          unfold amtOf
          rw [show ({ s with
                accounts := s.accounts.update dp.client_id fun a =>
                  { a with available := a.available - d.amount,
                           held := a.held + d.amount },
                disputes := (s.disputes.dispute_tx dp.client_id dp.tx_id).1 }
                  : State).transactions.by_client c dp.tx_id
              = s.transactions.by_client c dp.tx_id from rfl, hc, hentry]
        show optHeld _ = _
        rw [hactive, if_pos hc, hheld1,
          Finset.sum_insert (show dp.tx_id ∉ s.disputes.active c from hc ▸ hnot),
          hamt_tx]
        have hrest : Finset.sum (s.disputes.active c) (amtOf ({ s with
              accounts := s.accounts.update dp.client_id fun a =>
                { a with available := a.available - d.amount,
                         held := a.held + d.amount },
              disputes := (s.disputes.dispute_tx dp.client_id dp.tx_id).1 }
                : State) c) = Finset.sum (s.disputes.active c) (amtOf s c) :=
          Finset.sum_congr rfl fun tx _ => rfl
        rw [hrest, ← hInv.held_sum c]
        have : heldOf s c = acct.held := by
          unfold heldOf
          rw [hc, hacct]
          rfl
        rw [this]
        ring
      · have h1 : optHeld ((s.accounts.update dp.client_id fun a =>
              { a with available := a.available - d.amount,
                       held := a.held + d.amount }) c) = optHeld (s.accounts c) := by
          rw [update_ne _ _ _ _ hc]
        show optHeld _ = _
        rw [hactive, if_neg hc, h1]
        exact (hInv.held_sum c).trans (Finset.sum_congr rfl fun tx _ => rfl)

/-- Settling an active dispute (resolve or chargeback) preserves the
invariant, for any accounts map that removes exactly the disputed amount from
the settling client's held balance and preserves every other held balance. -/
theorem inv_settle (s : State) (hInv : EngineInv s) (cl : ClientId)
    (tx : TransactionId) (d : Deposit)
    (hentry : s.transactions.by_client cl tx = some (.deposit (.ok d)))
    (hmem : tx ∈ s.disputes.active cl)
    (accounts1 : AccountsState)
    (hheld_cl : optHeld (accounts1 cl) = optHeld (s.accounts cl) - d.amount)
    (hheld_ne : ∀ c, c ≠ cl → optHeld (accounts1 c) = optHeld (s.accounts c)) :
    EngineInv (State.mk accounts1 s.transactions
      ((s.disputes.settle_dispute cl tx).1)) := by
  refine ⟨hInv.log_ok, hInv.log_global, ?_, ?_⟩
  · intro c tx1 hmem1
    rw [show (State.mk accounts1 s.transactions
          ((s.disputes.settle_dispute cl tx).1)).disputes.active c
        = ((s.disputes.settle_dispute cl tx).1).active c from rfl,
      settle_dispute_active _ _ _ hmem] at hmem1
    by_cases hc : c = cl
    · rw [if_pos hc] at hmem1
      exact hInv.active_logged c tx1 (Finset.mem_of_mem_erase hmem1)
    · rw [if_neg hc] at hmem1
      exact hInv.active_logged c tx1 hmem1
  · intro c
    have hactive : (State.mk accounts1 s.transactions
          ((s.disputes.settle_dispute cl tx).1)).disputes.active c
        = if c = cl then (s.disputes.active c).erase tx
          else s.disputes.active c := settle_dispute_active _ _ _ hmem c
    have hrest : ∀ (t1 : Finset TransactionId),
        Finset.sum t1 (amtOf (State.mk accounts1 s.transactions
          ((s.disputes.settle_dispute cl tx).1)) c)
        = Finset.sum t1 (amtOf s c) :=
      fun t1 => Finset.sum_congr rfl fun tx1 _ => rfl
    by_cases hc : c = cl
    · show optHeld (accounts1 c) = _
      rw [hactive, if_pos hc, hrest,
        Finset.sum_erase_eq_sub (show tx ∈ s.disputes.active c from hc ▸ hmem),
        ← hInv.held_sum c]
      have hamt : amtOf s c tx = d.amount := by
        unfold amtOf
        rw [hc, hentry]
      rw [hamt, hc, hheld_cl]
      rfl
    · show optHeld (accounts1 c) = _
      rw [hactive, if_neg hc, hrest, hheld_ne c hc]
      exact hInv.held_sum c

theorem inv_handle_resolve (r : Resolve) (s : State) (hInv : EngineInv s) :
    EngineInv (handle_resolve r s).1 := by
  rcases hv : validate_post_dispute r.client_id r.tx_id s.accounts s.transactions
      s.disputes with ⟨a1, res⟩
  cases res with
  | error e =>
    have ha1 : a1 = s.accounts := by
      have := validate_post_dispute_fst r.client_id r.tx_id s.accounts
        s.transactions s.disputes
      rwa [hv] at this
    subst ha1
    simp only [handle_resolve, hv]
    exact hInv
  | ok dlk =>
    obtain ⟨d, lk⟩ := dlk
    obtain ⟨ha1, hentry, hcl, hmem, ⟨acct, hacct, hlk⟩⟩ :=
      validate_post_dispute_ok r.client_id r.tx_id s.accounts s.transactions
        s.disputes a1 d lk hv
    subst ha1
    simp only [handle_resolve, hv]
    refine inv_settle s hInv r.client_id r.tx_id d hentry hmem _ ?_ ?_
    · rw [update_self, hacct]
      show acct.held - d.amount = acct.held - d.amount
      rfl
    · intro c hc
      rw [update_ne _ _ _ _ hc]

theorem inv_handle_chargeback (cb : Chargeback) (s : State) (hInv : EngineInv s) :
    EngineInv (handle_chargeback cb s).1 := by
  rcases hv : validate_post_dispute cb.client_id cb.tx_id s.accounts s.transactions
      s.disputes with ⟨a1, res⟩
  cases res with
  | error e =>
    have ha1 : a1 = s.accounts := by
      have := validate_post_dispute_fst cb.client_id cb.tx_id s.accounts
        s.transactions s.disputes
      rwa [hv] at this
    subst ha1
    simp only [handle_chargeback, hv]
    exact hInv
  | ok dlk =>
    obtain ⟨d, lk⟩ := dlk
    obtain ⟨ha1, hentry, hcl, hmem, ⟨acct, hacct, hlk⟩⟩ :=
      validate_post_dispute_ok cb.client_id cb.tx_id s.accounts s.transactions
        s.disputes a1 d lk hv
    subst ha1
    simp only [handle_chargeback, hv]
    cases lk with
    | true =>
      simp only [if_true]
      refine inv_settle s hInv cb.client_id cb.tx_id d hentry hmem _ ?_ ?_
      · rw [update_self, hacct]
        show acct.held - d.amount = acct.held - d.amount
        rfl
      · intro c hc
        rw [update_ne _ _ _ _ hc]
    | false =>
      simp only [Bool.false_eq_true, if_false]
      refine inv_settle s hInv cb.client_id cb.tx_id d hentry hmem _ ?_ ?_
      · rw [update_self]
        rw [show (s.accounts.update cb.client_id fun a =>
              { a with held := a.held - d.amount }) cb.client_id
            = ((s.accounts cb.client_id).map fun a =>
              { a with held := a.held - d.amount }) from update_self .., hacct]
        show acct.held - d.amount = acct.held - d.amount
        rfl
      · intro c hc
        rw [update_ne _ _ _ _ hc, update_ne _ _ _ _ hc]

theorem inv_handle_transaction (record : TransactionRecord) (s : State)
    (hInv : EngineInv s) : EngineInv (handle_transaction record s).1 := by
  obtain ⟨ty, cl, tx, amt⟩ := record
  cases ty <;> cases amt <;>
    simp only [handle_transaction] <;>
    first
      | exact hInv
      | exact inv_handle_deposit _ s hInv
      | exact inv_handle_withdrawal _ s hInv
      | exact inv_handle_dispute _ s hInv
      | exact inv_handle_resolve _ s hInv
      | exact inv_handle_chargeback _ s hInv

theorem inv_processFrom (s : State) (hInv : EngineInv s)
    (records : List TransactionRecord) : EngineInv (processFrom s records) := by
  induction records generalizing s with
  | nil => exact hInv
  | cons r rest ih =>
    exact ih _ (inv_handle_transaction r s hInv)

theorem inv_processAll (records : List TransactionRecord) :
    EngineInv (processAll records) :=
  inv_processFrom State.new inv_state_new records

/-! ## Claim theorems -/

section Claims

attribute [local semireducible] Rat.add Rat.sub Rat.mul Rat.inv

/-- C9: `round_currency` rounds half-up at 4 fractional digits:
`round_currency(1.00003) = 1.0`, `round_currency(0.00005) = 0.0001`, and
`round_currency(0.00004) = 0.0`. -/
theorem c9_round_currency_values :
    round_currency (100003/100000) = 1
    ∧ round_currency (5/100000) = 1/10000
    ∧ round_currency (1/25000) = 0 := by
  refine ⟨?_, ?_, ?_⟩ <;> decide

/-- C8: `handle_transaction` is deterministic: folding it over any finite
record sequence from the empty state twice yields identical final states.  In
this embedding `handle_transaction` is a pure function of the record and the
state, so the two folds are definitionally the same term. -/
theorem c8_handle_transaction_deterministic (records : List TransactionRecord) :
    processAll records = processAll records := rfl

/-- C2: from the empty state, Deposit(10) then Dispute then Chargeback on the
same tx leaves the account with `available=0, held=0, locked=true`; a further
Dispute on that tx is rejected with `DisputeAlreadySettled`, and a further
Deposit for that client is rejected with `AccountLocked`. -/
theorem c2_chargeback_terminality :
    (processAll [⟨.Deposit, 1, 1, some 10⟩, ⟨.Dispute, 1, 1, none⟩,
        ⟨.Chargeback, 1, 1, none⟩]).accounts 1
      = some { available := 0, held := 0, locked := true }
    ∧ (handle_transaction ⟨.Dispute, 1, 1, none⟩
        (processAll [⟨.Deposit, 1, 1, some 10⟩, ⟨.Dispute, 1, 1, none⟩,
          ⟨.Chargeback, 1, 1, none⟩])).2
      = .error (.DisputeAlreadySettled 1 1)
    ∧ (handle_transaction ⟨.Deposit, 1, 2, some 5⟩
        (processAll [⟨.Deposit, 1, 1, some 10⟩, ⟨.Dispute, 1, 1, none⟩,
          ⟨.Chargeback, 1, 1, none⟩])).2
      = .error (.AccountLocked 1 2) := by
  refine ⟨?_, ?_, ?_⟩ <;> decide

/-- Exact-arithmetic idealization of the held-balance bookkeeping: if the
recorder's balance arithmetic is exact (no binary32 rounding), then in every
state reachable from the empty state each client's held balance equals the
sum of the amounts of that client's actively disputed deposits, is never
negative, and contains the amount of every actively disputed deposit.  This
is the design intent of the dispute bookkeeping (the spec: "resolve always
undoes exactly the dispute's effect"); the binary32 trace theorem for C10
below shows the real `f32` arithmetic breaks it. -/
theorem exact_arith_held_equals_disputed_sum (records : List TransactionRecord)
    (c : ClientId) :
    heldOf (processAll records) c
      = Finset.sum ((processAll records).disputes.active c)
          (amtOf (processAll records) c)
    ∧ 0 ≤ heldOf (processAll records) c
    ∧ ∀ tx ∈ (processAll records).disputes.active c,
        amtOf (processAll records) c tx ≤ heldOf (processAll records) c := by
  have hInv := inv_processAll records
  have hnn : ∀ tx ∈ (processAll records).disputes.active c,
      0 ≤ amtOf (processAll records) c tx := by
    intro tx hmem
    obtain ⟨d, hentry⟩ := hInv.active_logged c tx hmem
    have hpos := (hInv.log_ok c tx d hentry).2
    unfold amtOf
    rw [hentry]
    exact le_of_lt hpos
  refine ⟨hInv.held_sum c, ?_, ?_⟩
  · rw [hInv.held_sum c]
    exact Finset.sum_nonneg hnn
  · intro tx hmem
    rw [hInv.held_sum c]
    exact Finset.single_le_sum hnn hmem

theorem exact_arith_held_equals_disputed_sum_instance :
    0 ≤ heldOf (processAll [⟨.Deposit, 1, 1, some 10⟩,
        ⟨.Dispute, 1, 1, none⟩]) 1
    ∧ amtOf (processAll [⟨.Deposit, 1, 1, some 10⟩,
        ⟨.Dispute, 1, 1, none⟩]) 1 1
      ≤ heldOf (processAll [⟨.Deposit, 1, 1, some 10⟩,
        ⟨.Dispute, 1, 1, none⟩]) 1 :=
  ⟨(exact_arith_held_equals_disputed_sum [⟨.Deposit, 1, 1, some 10⟩,
      ⟨.Dispute, 1, 1, none⟩] 1).2.1,
   (exact_arith_held_equals_disputed_sum [⟨.Deposit, 1, 1, some 10⟩,
      ⟨.Dispute, 1, 1, none⟩] 1).2.2 1 (by decide)⟩

end Claims

/-! ## Error-path frame lemmas for the handlers -/

theorem handle_dispute_error_state (dp : Dispute) (s : State)
    (e : TransactionError) (h : (handle_dispute dp s).2 = .error e) :
    (handle_dispute dp s).1 = s := by
  rcases hv : validate_dispute dp s.accounts s.transactions s.disputes with ⟨a1, res⟩
  cases res with
  | ok d => simp [handle_dispute, hv] at h
  | error e2 =>
    have ha1 : a1 = s.accounts := by
      have := validate_dispute_fst dp s.accounts s.transactions s.disputes
      rwa [hv] at this
    subst ha1
    simp only [handle_dispute, hv]

theorem handle_resolve_error_state (r : Resolve) (s : State)
    (e : TransactionError) (h : (handle_resolve r s).2 = .error e) :
    (handle_resolve r s).1 = s := by
  rcases hv : validate_post_dispute r.client_id r.tx_id s.accounts s.transactions
      s.disputes with ⟨a1, res⟩
  cases res with
  | ok dlk =>
    obtain ⟨d, lk⟩ := dlk
    simp [handle_resolve, hv] at h
  | error e2 =>
    have ha1 : a1 = s.accounts := by
      have := validate_post_dispute_fst r.client_id r.tx_id s.accounts
        s.transactions s.disputes
      rwa [hv] at this
    subst ha1
    simp only [handle_resolve, hv]

theorem handle_chargeback_error_state (cb : Chargeback) (s : State)
    (e : TransactionError) (h : (handle_chargeback cb s).2 = .error e) :
    (handle_chargeback cb s).1 = s := by
  rcases hv : validate_post_dispute cb.client_id cb.tx_id s.accounts s.transactions
      s.disputes with ⟨a1, res⟩
  cases res with
  | ok dlk =>
    obtain ⟨d, lk⟩ := dlk
    simp [handle_chargeback, hv] at h
  | error e2 =>
    have ha1 : a1 = s.accounts := by
      have := validate_post_dispute_fst cb.client_id cb.tx_id s.accounts
        s.transactions s.disputes
      rwa [hv] at this
    subst ha1
    simp only [handle_chargeback, hv]

theorem handle_deposit_error_frame (d : Deposit) (s : State)
    (e : TransactionError) (h : (handle_deposit d s).2 = .error e) :
    (handle_deposit d s).1.accounts = s.accounts
    ∧ (handle_deposit d s).1.disputes = s.disputes
    ∧ (∀ c tx, ¬(c = d.client_id ∧ tx = d.tx_id) →
        (handle_deposit d s).1.transactions.by_client c tx
          = s.transactions.by_client c tx)
    ∧ (∀ tx, tx ≠ d.tx_id →
        (handle_deposit d s).1.transactions.tx_ids tx = s.transactions.tx_ids tx)
    ∧ (∀ c tx x, s.transactions.by_client c tx = some x →
        (handle_deposit d s).1.transactions.by_client c tx = some x) := by
  rcases hv : validate_deposit d s.accounts s.transactions with ⟨a1, res⟩
  cases res with
  | ok vd => simp [handle_deposit, hv] at h
  | error e2 =>
    have ha1 : a1 = s.accounts := by
      have h2 := validate_deposit_error_fst d s.accounts s.transactions e2 (by rw [hv])
      rwa [hv] at h2
    subst ha1
    have heq : (handle_deposit d s).1
        = State.mk s.accounts
            (s.transactions.insert d.client_id d.tx_id (.deposit (.error e2)))
            s.disputes := by
      simp only [handle_deposit, hv]
    rw [heq]
    exact ⟨rfl, rfl,
      fun c tx hk => insert_by_client_ne _ _ _ _ _ _ hk,
      fun tx htx => insert_tx_ids_ne _ _ _ _ _ htx,
      fun c tx x hx => insert_preserves_some _ _ _ _ _ _ _ hx⟩

theorem handle_withdrawal_error_frame (w : Withdrawal) (s : State)
    (e : TransactionError) (h : (handle_withdrawal w s).2 = .error e) :
    (handle_withdrawal w s).1.accounts = s.accounts
    ∧ (handle_withdrawal w s).1.disputes = s.disputes
    ∧ (∀ c tx, ¬(c = w.client_id ∧ tx = w.tx_id) →
        (handle_withdrawal w s).1.transactions.by_client c tx
          = s.transactions.by_client c tx)
    ∧ (∀ tx, tx ≠ w.tx_id →
        (handle_withdrawal w s).1.transactions.tx_ids tx = s.transactions.tx_ids tx)
    ∧ (∀ c tx x, s.transactions.by_client c tx = some x →
        (handle_withdrawal w s).1.transactions.by_client c tx = some x) := by
  rcases hv : validate_withdrawal w s.accounts s.transactions with ⟨a1, res⟩
  cases res with
  | ok vw => simp [handle_withdrawal, hv] at h
  | error e2 =>
    have ha1 : a1 = s.accounts := by
      have h2 := validate_withdrawal_fst w s.accounts s.transactions
      rwa [hv] at h2
    subst ha1
    have heq : (handle_withdrawal w s).1
        = State.mk s.accounts
            (s.transactions.insert w.client_id w.tx_id (.withdrawal (.error e2)))
            s.disputes := by
      simp only [handle_withdrawal, hv]
    rw [heq]
    exact ⟨rfl, rfl,
      fun c tx hk => insert_by_client_ne _ _ _ _ _ _ hk,
      fun tx htx => insert_tx_ids_ne _ _ _ _ _ htx,
      fun c tx x hx => insert_preserves_some _ _ _ _ _ _ _ hx⟩

section ClaimsC1

attribute [local semireducible] Rat.add Rat.sub Rat.mul Rat.inv

/-- C1 counterexample: a deposit with amount 0 is rejected with
`AmountNotPositive`, yet the handler logs the failed deposit, so the state
after the call differs from the state before it. -/
theorem c1_counterexample :
    (handle_transaction ⟨.Deposit, 1, 1, some 0⟩ State.new).2
      = .error (.AmountNotPositive 1 0)
    ∧ (handle_transaction ⟨.Deposit, 1, 1, some 0⟩
        State.new).1.transactions.by_client 1 1
      = some (.deposit (.error (.AmountNotPositive 1 0)))
    ∧ State.new.transactions.by_client 1 1 = none
    ∧ (handle_transaction ⟨.Deposit, 1, 1, some 0⟩ State.new).1 ≠ State.new := by
  refine ⟨by decide, by decide, rfl, ?_⟩
  intro heq
  have h2 := congrArg (fun st : State => st.transactions.by_client 1 1) heq
  revert h2
  decide

/-- C1 amended: when `handle_transaction` rejects a record, account balances
and dispute statuses are unchanged, and the transaction log is unchanged
except possibly for recording the failed deposit/withdrawal outcome under the
record's own (client, tx) key (and marking that tx id used). -/
theorem c1_amended (record : TransactionRecord) (s : State)
    (e : TransactionError) (h : (handle_transaction record s).2 = .error e) :
    (handle_transaction record s).1.accounts = s.accounts
    ∧ (handle_transaction record s).1.disputes = s.disputes
    ∧ (∀ c tx, ¬(c = record.client_id ∧ tx = record.tx_id) →
        (handle_transaction record s).1.transactions.by_client c tx
          = s.transactions.by_client c tx)
    ∧ (∀ tx, tx ≠ record.tx_id →
        (handle_transaction record s).1.transactions.tx_ids tx
          = s.transactions.tx_ids tx)
    ∧ (∀ c tx x, s.transactions.by_client c tx = some x →
        (handle_transaction record s).1.transactions.by_client c tx = some x) := by
  obtain ⟨ty, cl, tx0, amt⟩ := record
  cases ty <;> cases amt <;> simp only [handle_transaction] at h ⊢
  case Deposit.some a =>
    exact handle_deposit_error_frame ⟨cl, tx0, round_currency a⟩ s e h
  case Withdrawal.some a =>
    exact handle_withdrawal_error_frame ⟨cl, tx0, round_currency a⟩ s e h
  case Dispute.none =>
    rw [handle_dispute_error_state ⟨cl, tx0⟩ s e h]
    exact ⟨rfl, rfl, fun _ _ _ => rfl, fun _ _ => rfl, fun _ _ _ hx => hx⟩
  case Resolve.none =>
    rw [handle_resolve_error_state ⟨cl, tx0⟩ s e h]
    exact ⟨rfl, rfl, fun _ _ _ => rfl, fun _ _ => rfl, fun _ _ _ hx => hx⟩
  case Chargeback.none =>
    rw [handle_chargeback_error_state ⟨cl, tx0⟩ s e h]
    exact ⟨rfl, rfl, fun _ _ _ => rfl, fun _ _ => rfl, fun _ _ _ hx => hx⟩
  all_goals simp

theorem c1_amended_witness :
    (handle_transaction ⟨.Deposit, 1, 1, some 0⟩ State.new).1.accounts
      = State.new.accounts
    ∧ (handle_transaction ⟨.Deposit, 1, 1, some 0⟩ State.new).1.disputes
      = State.new.disputes
    ∧ (handle_transaction ⟨.Deposit, 1, 1, some 0⟩
        State.new).1.transactions.by_client 2 2
      = State.new.transactions.by_client 2 2 := by
  have h := c1_amended ⟨.Deposit, 1, 1, some 0⟩ State.new
    (.AmountNotPositive 1 0) (by decide)
  exact ⟨h.1, h.2.1, h.2.2.1 2 2 (by decide)⟩

end ClaimsC1

section ClaimsC3

attribute [local semireducible] Rat.add Rat.sub Rat.mul Rat.inv

/-- C3 counterexample: validating a deposit for a client with no existing
account inserts a default account into the ledger, so `validate_deposit` is
not state-preserving. -/
theorem c3_counterexample :
    (validate_deposit ⟨1, 1, 5⟩ State.new.accounts State.new.transactions).1 1
      = some Account.defaultAccount
    ∧ State.new.accounts 1 = none
    ∧ (validate_deposit ⟨1, 1, 5⟩ State.new.accounts State.new.transactions).1
      ≠ State.new.accounts := by
  refine ⟨by decide, rfl, ?_⟩
  intro heq
  have h2 := congrFun heq 1
  revert h2
  decide

/-- C3 amended: `validate_withdrawal`, `validate_dispute` and
`validate_post_dispute` leave the ledger unchanged on every input; and
`validate_deposit` changes no client other than the deposit's, where its only
possible effect is lazily creating the default (zeroed, unlocked) account for
a previously unknown client. -/
theorem c3_amended (w : Withdrawal) (dp : Dispute) (cl : ClientId)
    (tx : TransactionId) (d : Deposit) (accounts : AccountsState)
    (transactions : TransactionsState) (disputes : DisputesState) :
    (validate_withdrawal w accounts transactions).1 = accounts
    ∧ (validate_dispute dp accounts transactions disputes).1 = accounts
    ∧ (validate_post_dispute cl tx accounts transactions disputes).1 = accounts
    ∧ (∀ c, c ≠ d.client_id →
        (validate_deposit d accounts transactions).1 c = accounts c)
    ∧ ((validate_deposit d accounts transactions).1 d.client_id
         = accounts d.client_id
       ∨ (accounts d.client_id = none
          ∧ (validate_deposit d accounts transactions).1 d.client_id
              = some Account.defaultAccount)) :=
  ⟨validate_withdrawal_fst w accounts transactions,
   validate_dispute_fst dp accounts transactions disputes,
   validate_post_dispute_fst cl tx accounts transactions disputes,
   fun c hc => validate_deposit_fst_ne d accounts transactions c hc,
   validate_deposit_fst_self d accounts transactions⟩

theorem c3_amended_witness :
    (validate_withdrawal ⟨1, 1, 5⟩ State.new.accounts State.new.transactions).1
      = State.new.accounts
    ∧ (validate_deposit ⟨1, 1, 5⟩ State.new.accounts State.new.transactions).1 2
      = State.new.accounts 2 := by
  have h := c3_amended ⟨1, 1, 5⟩ ⟨1, 1⟩ 1 1 ⟨1, 1, 5⟩ State.new.accounts
    State.new.transactions State.new.disputes
  exact ⟨h.1, h.2.2.2.1 2 (by decide)⟩

end ClaimsC3

/-! ## Dispute rejection shape lemmas (for C4) -/

theorem validate_dispute_none (dp : Dispute) (accounts : AccountsState)
    (transactions : TransactionsState) (disputes : DisputesState)
    (h : transactions.by_client dp.client_id dp.tx_id = none) :
    (validate_dispute dp accounts transactions disputes).2
      = .error (.TxDoesNotExist dp.client_id dp.tx_id) := by
  unfold validate_dispute
  split
  · next res heq =>
    simp only [TransactionsState.get] at heq
    rw [h] at heq
    exact Option.noConfusion heq
  · next res heq =>
    simp only [TransactionsState.get] at heq
    rw [h] at heq
    exact Option.noConfusion heq
  · rfl

theorem validate_dispute_no_mismatch (dp : Dispute) (accounts : AccountsState)
    (transactions : TransactionsState) (disputes : DisputesState)
    (hlog : ∀ d : Deposit, transactions.by_client dp.client_id dp.tx_id
        = some (.deposit (.ok d)) → d.client_id = dp.client_id)
    (t1 : TransactionId) (tc dc : ClientId) :
    (validate_dispute dp accounts transactions disputes).2
      ≠ .error (.ClientMismatch t1 tc dc) := by
  unfold validate_dispute
  split
  · next res heq =>
    split
    · next d0 hres =>
      unfold validate_dispute_for_successful_tx
      split
      · next hne =>
        exact absurd (hlog hres heq).symm hne
      · split
        · simp
        · split
          · simp
          · split <;> simp
    · simp
  · simp
  · simp

section ClaimsC4

attribute [local semireducible] Rat.add Rat.sub Rat.mul Rat.inv

/-- C4 counterexample: after client 1 logs deposit tx 1, a Dispute from
client 2 naming tx 1 is rejected with `TxDoesNotExist` — not with the
`ClientMismatch` error the claim requires — because the log lookup is keyed
by the dispute's own client. -/
theorem c4_counterexample :
    (handle_transaction ⟨.Dispute, 2, 1, none⟩
        (processAll [⟨.Deposit, 1, 1, some 10⟩])).2
      = .error (.TxDoesNotExist 2 1)
    ∧ (handle_transaction ⟨.Dispute, 2, 1, none⟩
        (processAll [⟨.Deposit, 1, 1, some 10⟩])).2
      ≠ .error (.ClientMismatch 1 1 2) := by
  exact ⟨by decide, by decide⟩

/-- C4 amended: a dispute whose client has no log entry under the dispute's
tx id (in particular, any dispute naming another client's transaction) is
rejected with `TxDoesNotExist`, because the transaction log is consulted at
the dispute's own (client, tx) key; and in any reachable state no dispute is
ever rejected with `ClientMismatch` — that check is unreachable since each
client's log entries always carry that client's own id. -/
theorem c4_amended (records : List TransactionRecord) (cl : ClientId)
    (tx : TransactionId) :
    ((processAll records).transactions.by_client cl tx = none →
      (handle_transaction ⟨.Dispute, cl, tx, none⟩ (processAll records)).2
        = .error (.TxDoesNotExist cl tx))
    ∧ ∀ t1 tc dc,
        (handle_transaction ⟨.Dispute, cl, tx, none⟩ (processAll records)).2
          ≠ .error (.ClientMismatch t1 tc dc) := by
  constructor
  · intro hnone
    simp only [handle_transaction]
    have hval := validate_dispute_none ⟨cl, tx⟩ (processAll records).accounts
      (processAll records).transactions (processAll records).disputes hnone
    rcases hv : validate_dispute ⟨cl, tx⟩ (processAll records).accounts
        (processAll records).transactions (processAll records).disputes
      with ⟨a1, res⟩
    rw [hv] at hval
    cases res with
    | ok d => exact Except.noConfusion hval
    | error e =>
      simp only [handle_dispute, hv]
      simpa using hval
  · intro t1 tc dc hbad
    simp only [handle_transaction] at hbad
    have hInv := inv_processAll records
    have hno := validate_dispute_no_mismatch ⟨cl, tx⟩ (processAll records).accounts
      (processAll records).transactions (processAll records).disputes
      (fun d0 hentry => (hInv.log_ok cl tx d0 hentry).1) t1 tc dc
    rcases hv : validate_dispute ⟨cl, tx⟩ (processAll records).accounts
        (processAll records).transactions (processAll records).disputes
      with ⟨a1, res⟩
    rw [hv] at hno
    cases res with
    | ok d => simp [handle_dispute, hv] at hbad
    | error e =>
      simp only [handle_dispute, hv] at hbad
      exact hno (by simpa using hbad)

theorem c4_amended_witness :
    (handle_transaction ⟨.Dispute, 2, 1, none⟩
        (processAll [⟨.Deposit, 1, 1, some 10⟩])).2
      = .error (.TxDoesNotExist 2 1) := by
  have h := c4_amended [⟨.Deposit, 1, 1, some 10⟩] 2 1
  exact h.1 (by decide)

end ClaimsC4

section ClaimsC5

attribute [local semireducible] Rat.add Rat.sub Rat.mul Rat.inv

/-- C5: for a withdrawal that passes the duplicate and positivity checks
against an unlocked (or absent) account, `validate_withdrawal` rejects with
`InsufficientFunds{requested, available}` exactly when the available balance
is strictly below the requested amount; an unknown client is treated as
having `available = 0` and so always fails with `InsufficientFunds` (there is
no account-not-found error); and a withdrawal of exactly the available
balance is accepted. -/
theorem c5_insufficient_funds_boundary (w : Withdrawal)
    (accounts : AccountsState) (transactions : TransactionsState)
    (hfresh : transactions.tx_ids w.tx_id = false)
    (hpos : 0 < w.amount)
    (hunlocked : ∀ a, accounts w.client_id = some a → a.locked = false) :
    ((validate_withdrawal w accounts transactions).2
        = .error (.InsufficientFunds w.client_id w.tx_id w.amount
            (availOf (accounts w.client_id)))
      ↔ availOf (accounts w.client_id) < w.amount)
    ∧ (accounts w.client_id = none →
        (validate_withdrawal w accounts transactions).2
          = .error (.InsufficientFunds w.client_id w.tx_id w.amount 0))
    ∧ (availOf (accounts w.client_id) = w.amount →
        (validate_withdrawal w accounts transactions).2 = .ok w) := by
  have hdup : check_for_duplicate_tx_id w.tx_id transactions = .ok () := by
    unfold check_for_duplicate_tx_id
    simp [TransactionsState.tx_exists, hfresh]
  have hposc : check_for_positive_amount w.tx_id w.amount = .ok () := by
    unfold check_for_positive_amount
    simp [hpos]
  rcases ha : accounts w.client_id with _ | acct
  · have hv : (validate_withdrawal w accounts transactions).2
        = .error (.InsufficientFunds w.client_id w.tx_id w.amount 0) := by
      unfold validate_withdrawal
      simp only [hdup, hposc, show accounts.get w.client_id = none from ha]
    rw [hv]
    refine ⟨?_, ?_, ?_⟩
    · simp only [availOf]
      exact ⟨fun _ => hpos, fun _ => trivial⟩
    · intro h0
      rfl
    · intro h0
      rw [availOf] at h0
      exact absurd (h0 ▸ hpos) (lt_irrefl w.amount)
  · have hlkd := hunlocked acct ha
    by_cases hle : w.amount ≤ acct.available
    · have hv : (validate_withdrawal w accounts transactions).2 = .ok w := by
        unfold validate_withdrawal
        simp only [hdup, hposc, show accounts.get w.client_id = some acct from ha,
          hlkd, Bool.false_eq_true, if_false]
        rw [if_pos hle]
      rw [hv]
      refine ⟨?_, ?_, ?_⟩
      · simp only [availOf]
        exact ⟨fun hbad => Except.noConfusion hbad,
          fun hlt => absurd hle (not_le.mpr hlt)⟩
      · intro hnone
        exact Option.noConfusion hnone
      · intro h0
        rfl
    · have hv : (validate_withdrawal w accounts transactions).2
          = .error (.InsufficientFunds w.client_id w.tx_id w.amount
              acct.available) := by
        unfold validate_withdrawal
        simp only [hdup, hposc, show accounts.get w.client_id = some acct from ha,
          hlkd, Bool.false_eq_true, if_false]
        rw [if_neg hle]
      rw [hv]
      refine ⟨?_, ?_, ?_⟩
      · simp only [availOf]
        exact ⟨fun _ => not_le.mp hle, fun _ => trivial⟩
      · intro hnone
        exact Option.noConfusion hnone
      · intro heqa
        rw [availOf] at heqa
        exact absurd (le_of_eq heqa.symm) hle

theorem c5_insufficient_funds_boundary_witness :
    (validate_withdrawal ⟨1, 7, 100001/10000⟩
        (fun c => if c = 1 then some ⟨10, 0, false⟩ else none)
        State.new.transactions).2
      = .error (.InsufficientFunds 1 7 (100001/10000) 10)
    ∧ (validate_withdrawal ⟨1, 8, 10⟩
        (fun c => if c = 1 then some ⟨10, 0, false⟩ else none)
        State.new.transactions).2 = .ok ⟨1, 8, 10⟩ := by
  have h1 := c5_insufficient_funds_boundary ⟨1, 7, 100001/10000⟩
    (fun c => if c = 1 then some ⟨10, 0, false⟩ else none)
    State.new.transactions rfl (by decide)
    (fun a ha => by
      simp only [if_pos rfl] at ha
      cases Option.some.inj ha
      rfl)
  have h2 := c5_insufficient_funds_boundary ⟨1, 8, 10⟩
    (fun c => if c = 1 then some ⟨10, 0, false⟩ else none)
    State.new.transactions rfl (by decide)
    (fun a ha => by
      simp only [if_pos rfl] at ha
      cases Option.some.inj ha
      rfl)
  refine ⟨?_, ?_⟩
  · have h3 := h1.1.mpr (by decide)
    simpa using h3
  · have h3 := h2.2.2 (by decide)
    simpa using h3

end ClaimsC5

/-! ## Account existence lemmas (for C7) -/

theorem update_none_iff (a : AccountsState) (cl : ClientId)
    (f : Account → Account) (c : ClientId) :
    a.update cl f c = none ↔ a c = none := by
  unfold AccountsState.update
  by_cases hc : c = cl
  · rw [if_pos hc]
    exact Option.map_eq_none'
  · rw [if_neg hc]

theorem validate_deposit_fst_cases (d : Deposit) (accounts : AccountsState)
    (transactions : TransactionsState) (c : ClientId) :
    (validate_deposit d accounts transactions).1 c = accounts c
    ∨ (accounts c = none
       ∧ (validate_deposit d accounts transactions).1 c
           = some Account.defaultAccount) := by
  by_cases hc : c = d.client_id
  · rw [hc]
    exact validate_deposit_fst_self d accounts transactions
  · exact Or.inl (validate_deposit_fst_ne d accounts transactions c hc)

theorem handle_deposit_accounts_none_mono (d : Deposit) (s : State)
    (c : ClientId) (h : (handle_deposit d s).1.accounts c = none) :
    s.accounts c = none := by
  rcases hv : validate_deposit d s.accounts s.transactions with ⟨a1, res⟩
  have hcases : a1 c = s.accounts c
      ∨ (s.accounts c = none ∧ a1 c = some Account.defaultAccount) := by
    have := validate_deposit_fst_cases d s.accounts s.transactions c
    rwa [hv] at this
  cases res with
  | ok vd =>
    simp only [handle_deposit, hv] at h
    have h1 : a1 c = none := (update_none_iff a1 vd.client_id _ c).mp h
    rcases hcases with he | ⟨hn, hd⟩
    · rw [← he]
      exact h1
    · rw [h1] at hd
      exact Option.noConfusion hd
  | error e =>
    simp only [handle_deposit, hv] at h
    rcases hcases with he | ⟨hn, hd⟩
    · rw [← he]
      exact h
    · rw [h] at hd
      exact Option.noConfusion hd

theorem handle_withdrawal_accounts_none_iff (w : Withdrawal) (s : State)
    (c : ClientId) :
    (handle_withdrawal w s).1.accounts c = none ↔ s.accounts c = none := by
  rcases hv : validate_withdrawal w s.accounts s.transactions with ⟨a1, res⟩
  have ha1 : a1 = s.accounts := by
    have := validate_withdrawal_fst w s.accounts s.transactions
    rwa [hv] at this
  subst ha1
  cases res with
  | ok vw =>
    simp only [handle_withdrawal, hv]
    exact update_none_iff s.accounts vw.client_id _ c
  | error e =>
    simp only [handle_withdrawal, hv]

theorem handle_dispute_accounts_none_iff (dp : Dispute) (s : State)
    (c : ClientId) :
    (handle_dispute dp s).1.accounts c = none ↔ s.accounts c = none := by
  rcases hv : validate_dispute dp s.accounts s.transactions s.disputes with ⟨a1, res⟩
  have ha1 : a1 = s.accounts := by
    have := validate_dispute_fst dp s.accounts s.transactions s.disputes
    rwa [hv] at this
  subst ha1
  cases res with
  | ok d =>
    simp only [handle_dispute, hv]
    exact update_none_iff s.accounts dp.client_id _ c
  | error e =>
    simp only [handle_dispute, hv]

theorem handle_resolve_accounts_none_iff (r : Resolve) (s : State)
    (c : ClientId) :
    (handle_resolve r s).1.accounts c = none ↔ s.accounts c = none := by
  rcases hv : validate_post_dispute r.client_id r.tx_id s.accounts s.transactions
      s.disputes with ⟨a1, res⟩
  have ha1 : a1 = s.accounts := by
    have := validate_post_dispute_fst r.client_id r.tx_id s.accounts
      s.transactions s.disputes
    rwa [hv] at this
  subst ha1
  cases res with
  | ok dlk =>
    obtain ⟨d, lk⟩ := dlk
    simp only [handle_resolve, hv]
    exact update_none_iff s.accounts r.client_id _ c
  | error e =>
    simp only [handle_resolve, hv]

theorem handle_chargeback_accounts_none_iff (cb : Chargeback) (s : State)
    (c : ClientId) :
    (handle_chargeback cb s).1.accounts c = none ↔ s.accounts c = none := by
  rcases hv : validate_post_dispute cb.client_id cb.tx_id s.accounts s.transactions
      s.disputes with ⟨a1, res⟩
  have ha1 : a1 = s.accounts := by
    have := validate_post_dispute_fst cb.client_id cb.tx_id s.accounts
      s.transactions s.disputes
    rwa [hv] at this
  subst ha1
  cases res with
  | ok dlk =>
    obtain ⟨d, lk⟩ := dlk
    simp only [handle_chargeback, hv]
    cases lk with
    | true =>
      simp only [if_true]
      exact update_none_iff s.accounts cb.client_id _ c
    | false =>
      simp only [Bool.false_eq_true, if_false]
      exact Iff.trans
        (update_none_iff (s.accounts.update cb.client_id _) cb.client_id _ c)
        (update_none_iff s.accounts cb.client_id _ c)
  | error e =>
    simp only [handle_chargeback, hv]

theorem handle_deposit_accounts_ne (d : Deposit) (s : State) (c : ClientId)
    (hc : c ≠ d.client_id) :
    (handle_deposit d s).1.accounts c = s.accounts c := by
  rcases hv : validate_deposit d s.accounts s.transactions with ⟨a1, res⟩
  have ha1 : a1 c = s.accounts c := by
    have := validate_deposit_fst_ne d s.accounts s.transactions c hc
    rwa [hv] at this
  cases res with
  | ok vd =>
    obtain ⟨hvd, h2, h3⟩ := validate_deposit_ok d s.accounts s.transactions a1 vd hv
    simp only [handle_deposit, hv]
    rw [update_ne _ _ _ _ (show c ≠ vd.client_id from by rw [hvd]; exact hc)]
    exact ha1
  | error e =>
    simp only [handle_deposit, hv]
    exact ha1

theorem handle_withdrawal_accounts_ne (w : Withdrawal) (s : State) (c : ClientId)
    (hc : c ≠ w.client_id) :
    (handle_withdrawal w s).1.accounts c = s.accounts c := by
  rcases hv : validate_withdrawal w s.accounts s.transactions with ⟨a1, res⟩
  have ha1 : a1 = s.accounts := by
    have := validate_withdrawal_fst w s.accounts s.transactions
    rwa [hv] at this
  subst ha1
  cases res with
  | ok vw =>
    obtain ⟨h1, hvw, h3⟩ := validate_withdrawal_ok w s.accounts s.transactions
      s.accounts vw hv
    simp only [handle_withdrawal, hv]
    rw [update_ne _ _ _ _ (show c ≠ vw.client_id from by rw [hvw]; exact hc)]
  | error e =>
    simp only [handle_withdrawal, hv]

theorem handle_dispute_accounts_ne (dp : Dispute) (s : State) (c : ClientId)
    (hc : c ≠ dp.client_id) :
    (handle_dispute dp s).1.accounts c = s.accounts c := by
  rcases hv : validate_dispute dp s.accounts s.transactions s.disputes with ⟨a1, res⟩
  have ha1 : a1 = s.accounts := by
    have := validate_dispute_fst dp s.accounts s.transactions s.disputes
    rwa [hv] at this
  subst ha1
  cases res with
  | ok d =>
    simp only [handle_dispute, hv]
    rw [update_ne _ _ _ _ hc]
  | error e =>
    simp only [handle_dispute, hv]

theorem handle_resolve_accounts_ne (r : Resolve) (s : State) (c : ClientId)
    (hc : c ≠ r.client_id) :
    (handle_resolve r s).1.accounts c = s.accounts c := by
  rcases hv : validate_post_dispute r.client_id r.tx_id s.accounts s.transactions
      s.disputes with ⟨a1, res⟩
  have ha1 : a1 = s.accounts := by
    have := validate_post_dispute_fst r.client_id r.tx_id s.accounts
      s.transactions s.disputes
    rwa [hv] at this
  subst ha1
  cases res with
  | ok dlk =>
    obtain ⟨d, lk⟩ := dlk
    simp only [handle_resolve, hv]
    rw [update_ne _ _ _ _ hc]
  | error e =>
    simp only [handle_resolve, hv]

theorem handle_chargeback_accounts_ne (cb : Chargeback) (s : State) (c : ClientId)
    (hc : c ≠ cb.client_id) :
    (handle_chargeback cb s).1.accounts c = s.accounts c := by
  rcases hv : validate_post_dispute cb.client_id cb.tx_id s.accounts s.transactions
      s.disputes with ⟨a1, res⟩
  have ha1 : a1 = s.accounts := by
    have := validate_post_dispute_fst cb.client_id cb.tx_id s.accounts
      s.transactions s.disputes
    rwa [hv] at this
  subst ha1
  cases res with
  | ok dlk =>
    obtain ⟨d, lk⟩ := dlk
    simp only [handle_chargeback, hv]
    cases lk with
    | true =>
      simp only [if_true]
      rw [update_ne _ _ _ _ hc]
    | false =>
      simp only [Bool.false_eq_true, if_false]
      rw [update_ne _ _ _ _ hc, update_ne _ _ _ _ hc]
  | error e =>
    simp only [handle_chargeback, hv]

theorem handle_transaction_accounts_ne (record : TransactionRecord) (s : State)
    (c : ClientId) (hc : c ≠ record.client_id) :
    (handle_transaction record s).1.accounts c = s.accounts c := by
  obtain ⟨ty, cl, tx0, amt⟩ := record
  cases ty <;> cases amt <;> simp only [handle_transaction]
  case Deposit.some a => exact handle_deposit_accounts_ne _ s c hc
  case Withdrawal.some a => exact handle_withdrawal_accounts_ne _ s c hc
  case Dispute.none => exact handle_dispute_accounts_ne _ s c hc
  case Resolve.none => exact handle_resolve_accounts_ne _ s c hc
  case Chargeback.none => exact handle_chargeback_accounts_ne _ s c hc

theorem handle_transaction_accounts_none_mono (record : TransactionRecord)
    (s : State) (c : ClientId)
    (h : (handle_transaction record s).1.accounts c = none) :
    s.accounts c = none := by
  obtain ⟨ty, cl, tx0, amt⟩ := record
  cases ty <;> cases amt <;> simp only [handle_transaction] at h
  case Deposit.some a => exact handle_deposit_accounts_none_mono _ s c h
  case Withdrawal.some a => exact (handle_withdrawal_accounts_none_iff _ s c).mp h
  case Dispute.none => exact (handle_dispute_accounts_none_iff _ s c).mp h
  case Resolve.none => exact (handle_resolve_accounts_none_iff _ s c).mp h
  case Chargeback.none => exact (handle_chargeback_accounts_none_iff _ s c).mp h
  all_goals exact h

theorem handle_transaction_accounts_none_of_none (record : TransactionRecord)
    (s : State) (c : ClientId)
    (hty : record.transaction_type ≠ .Deposit)
    (h : s.accounts c = none) :
    (handle_transaction record s).1.accounts c = none := by
  obtain ⟨ty, cl, tx0, amt⟩ := record
  cases ty <;> cases amt <;> simp only [handle_transaction]
  case Deposit.none => exact h
  case Deposit.some a => exact absurd rfl hty
  case Withdrawal.some a => exact (handle_withdrawal_accounts_none_iff _ s c).mpr h
  case Dispute.none => exact (handle_dispute_accounts_none_iff _ s c).mpr h
  case Resolve.none => exact (handle_resolve_accounts_none_iff _ s c).mpr h
  case Chargeback.none => exact (handle_chargeback_accounts_none_iff _ s c).mpr h
  all_goals exact h

theorem handle_deposit_creates (cl : ClientId) (tx0 : TransactionId)
    (amt : CurrencyFloat) (s : State)
    (hfresh : s.transactions.tx_ids tx0 = false)
    (hpos : 0 < amt)
    (hnone : s.accounts cl = none) :
    (handle_deposit ⟨cl, tx0, amt⟩ s).1.accounts cl
      = some { available := amt, held := 0, locked := false } := by
  have hv : validate_deposit ⟨cl, tx0, amt⟩ s.accounts s.transactions
      = ((fun c => if c = cl then some Account.defaultAccount else s.accounts c),
         .ok ⟨cl, tx0, amt⟩) := by
    unfold validate_deposit check_for_duplicate_tx_id check_for_positive_amount
      AccountsState.get_mut_or_default
    simp [TransactionsState.tx_exists, hfresh, hpos, hnone, Account.defaultAccount]
  simp only [handle_deposit, hv]
  rw [update_self]
  simp [Account.defaultAccount]

section ClaimsC7

attribute [local semireducible] Rat.add Rat.sub Rat.mul Rat.inv

/-- C7 counterexample: the first withdrawal attempt naming an unknown client
is rejected with `InsufficientFunds{available: 0}` and does NOT create the
account — after the call the client still has no account. -/
theorem c7_counterexample :
    (handle_transaction ⟨.Withdrawal, 1, 1, some 5⟩ State.new).2
      = .error (.InsufficientFunds 1 1 5 0)
    ∧ (handle_transaction ⟨.Withdrawal, 1, 1, some 5⟩ State.new).1.accounts 1
      = none := by
  exact ⟨by decide, by decide⟩

/-- C7 amended: no operation ever removes an account; operations touch no
client other than the record's; only deposits create accounts — a deposit
passing the duplicate and positivity checks for an unknown client creates
that account implicitly (zeroed then credited, unlocked), while withdrawals
(and all other events) for an unknown client never create it. -/
theorem c7_amended (record : TransactionRecord) (s : State) :
    (∀ c, s.accounts c ≠ none →
      (handle_transaction record s).1.accounts c ≠ none)
    ∧ (∀ c, c ≠ record.client_id →
        (handle_transaction record s).1.accounts c = s.accounts c)
    ∧ (record.transaction_type ≠ .Deposit → ∀ c, s.accounts c = none →
        (handle_transaction record s).1.accounts c = none)
    ∧ (∀ amtv, record.transaction_type = .Deposit → record.amount = some amtv →
        s.transactions.tx_ids record.tx_id = false → 0 < round_currency amtv →
        s.accounts record.client_id = none →
        (handle_transaction record s).1.accounts record.client_id
          = some { available := round_currency amtv, held := 0,
                   locked := false }) := by
  refine ⟨?_, ?_, ?_, ?_⟩
  · intro c hold hnew
    exact hold (handle_transaction_accounts_none_mono record s c hnew)
  · intro c hc
    exact handle_transaction_accounts_ne record s c hc
  · intro hty c hold
    exact handle_transaction_accounts_none_of_none record s c hty hold
  · intro amtv hty hamt hfresh hpos hnone
    obtain ⟨ty, cl, tx0, amt⟩ := record
    cases ty
    case Deposit =>
      cases amt with
      | none => exact Option.noConfusion hamt
      | some a =>
        have ha : a = amtv := Option.some.inj hamt
        subst ha
        simp only [handle_transaction]
        exact handle_deposit_creates cl tx0 (round_currency a) s hfresh hpos hnone
    all_goals simp at hty

theorem c7_amended_witness :
    (handle_transaction ⟨.Withdrawal, 1, 1, some 5⟩ State.new).1.accounts 2
      = State.new.accounts 2
    ∧ (handle_transaction ⟨.Deposit, 1, 1, some 10⟩ State.new).1.accounts 1
      = some { available := round_currency 10, held := 0, locked := false } := by
  have h1 := c7_amended ⟨.Withdrawal, 1, 1, some 5⟩ State.new
  have h2 := c7_amended ⟨.Deposit, 1, 1, some 10⟩ State.new
  exact ⟨h1.2.1 2 (by decide), h2.2.2.2 10 rfl rfl rfl (by decide) rfl⟩

end ClaimsC7

section ClaimsC6

attribute [local semireducible] Rat.add Rat.sub Rat.mul Rat.inv

/-- C6: for every client and tx id, Deposit(10) then Dispute then Resolve on
that tx from the empty state leaves the account at
`available=10, held=0, locked=false` — exactly the balances and lock flag
produced by the deposit alone, with no dispute ever filed. -/
theorem c6_dispute_roundtrip (c : ClientId) (t : TransactionId) :
    (processAll [⟨.Deposit, c, t, some 10⟩, ⟨.Dispute, c, t, none⟩,
        ⟨.Resolve, c, t, none⟩]).accounts c
      = some { available := 10, held := 0, locked := false }
    ∧ (processAll [⟨.Deposit, c, t, some 10⟩]).accounts c
      = some { available := 10, held := 0, locked := false }
    ∧ (processAll [⟨.Deposit, c, t, some 10⟩, ⟨.Dispute, c, t, none⟩,
        ⟨.Resolve, c, t, none⟩]).accounts c
      = (processAll [⟨.Deposit, c, t, some 10⟩]).accounts c := by
  have h10 : round_currency 10 = 10 := by decide
  have h1 : (processAll [⟨.Deposit, c, t, some 10⟩, ⟨.Dispute, c, t, none⟩,
      ⟨.Resolve, c, t, none⟩]).accounts c
      = some { available := 10, held := 0, locked := false } := by
    simp [processAll, processFrom, handle_transaction, handle_deposit,
      handle_dispute, handle_resolve, validate_deposit, validate_withdrawal,
      validate_dispute, validate_dispute_for_successful_tx, validate_post_dispute,
      validate_post_dispute_for_existing_tx, check_for_duplicate_tx_id,
      check_for_positive_amount, State.new, AccountsState.get_mut_or_default,
      AccountsState.update, AccountsState.get, TransactionsState.insert,
      TransactionsState.get, TransactionsState.tx_exists,
      DisputesState.is_disputed, DisputesState.is_settled,
      DisputesState.dispute_tx, DisputesState.settle_dispute, h10,
      Account.defaultAccount]
  have h2 : (processAll [⟨.Deposit, c, t, some 10⟩]).accounts c
      = some { available := 10, held := 0, locked := false } := by
    simp [processAll, processFrom, handle_transaction, handle_deposit,
      validate_deposit, check_for_duplicate_tx_id, check_for_positive_amount,
      State.new, AccountsState.get_mut_or_default, AccountsState.update,
      AccountsState.get, TransactionsState.insert, TransactionsState.tx_exists,
      h10, Account.defaultAccount]
  exact ⟨h1, h2, h1.trans h2.symm⟩

end ClaimsC6

section ClaimsC10

attribute [local semireducible] Rat.add Rat.sub Rat.mul Rat.inv

set_option maxRecDepth 8000

/-- C10: the claim fails on the program's own `f32` arithmetic.  Client 1
deposits 0.5 (tx 1) and 16777216.0 = 2 ^ 24 (tx 2), disputes both, then
resolves tx 2.  The binary32 addition `0.5 + 2 ^ 24` absorbs the 0.5, so
after the resolve the held balance is 0 while the 0.5 deposit is still
actively disputed: held no longer equals the sum of actively disputed
amounts, and that sum is not contained in held.  Resolving tx 1 then drives
held to -0.5, refuting non-negativity as well. -/
theorem c10_f32_failing_trace :
    heldOf (f32_processAll [⟨.Deposit, 1, 1, some (1/2)⟩,
      ⟨.Deposit, 1, 2, some 16777216⟩, ⟨.Dispute, 1, 1, none⟩,
      ⟨.Dispute, 1, 2, none⟩, ⟨.Resolve, 1, 2, none⟩]) 1 = 0
    ∧ (1 : TransactionId) ∈ (f32_processAll [⟨.Deposit, 1, 1, some (1/2)⟩,
      ⟨.Deposit, 1, 2, some 16777216⟩, ⟨.Dispute, 1, 1, none⟩,
      ⟨.Dispute, 1, 2, none⟩, ⟨.Resolve, 1, 2, none⟩]).disputes.active 1
    ∧ amtOf (f32_processAll [⟨.Deposit, 1, 1, some (1/2)⟩,
      ⟨.Deposit, 1, 2, some 16777216⟩, ⟨.Dispute, 1, 1, none⟩,
      ⟨.Dispute, 1, 2, none⟩, ⟨.Resolve, 1, 2, none⟩]) 1 1 = 1/2
    ∧ heldOf (f32_processAll [⟨.Deposit, 1, 1, some (1/2)⟩,
      ⟨.Deposit, 1, 2, some 16777216⟩, ⟨.Dispute, 1, 1, none⟩,
      ⟨.Dispute, 1, 2, none⟩, ⟨.Resolve, 1, 2, none⟩]) 1
      ≠ Finset.sum ((f32_processAll [⟨.Deposit, 1, 1, some (1/2)⟩,
          ⟨.Deposit, 1, 2, some 16777216⟩, ⟨.Dispute, 1, 1, none⟩,
          ⟨.Dispute, 1, 2, none⟩, ⟨.Resolve, 1, 2, none⟩]).disputes.active 1)
          (amtOf (f32_processAll [⟨.Deposit, 1, 1, some (1/2)⟩,
            ⟨.Deposit, 1, 2, some 16777216⟩, ⟨.Dispute, 1, 1, none⟩,
            ⟨.Dispute, 1, 2, none⟩, ⟨.Resolve, 1, 2, none⟩]) 1)
    ∧ heldOf (f32_processAll [⟨.Deposit, 1, 1, some (1/2)⟩,
      ⟨.Deposit, 1, 2, some 16777216⟩, ⟨.Dispute, 1, 1, none⟩,
      ⟨.Dispute, 1, 2, none⟩, ⟨.Resolve, 1, 2, none⟩,
      ⟨.Resolve, 1, 1, none⟩]) 1 = -(1/2)
    ∧ ¬ (0 ≤ heldOf (f32_processAll [⟨.Deposit, 1, 1, some (1/2)⟩,
      ⟨.Deposit, 1, 2, some 16777216⟩, ⟨.Dispute, 1, 1, none⟩,
      ⟨.Dispute, 1, 2, none⟩, ⟨.Resolve, 1, 2, none⟩,
      ⟨.Resolve, 1, 1, none⟩]) 1) := by
  refine ⟨?_, ?_, ?_, ?_, ?_, ?_⟩ <;> decide

end ClaimsC10
